import Mathlib

/-!
Shallow embedding of the bond-graph causality-assignment engine of the
`osg-bondgraphs` repository (files `bond.py`, `element.py`, `causalbg.py`,
`bondgraph.py`), together with proofs about the Sequential Causality
Assignment Procedure (SCAP).

Modelling conventions:
* Python exceptions are modelled by `Except Err`.
* Python object identity of `Bond` objects is modelled by the bond's
  construction index: the engine stores all bonds in one list indexed by
  construction order, and elements keep lists of indices into that list
  (in Python the elements hold references to the shared mutable objects).
* The symbolic constitutive relation of a `Resistance` enters the engine
  only through the two booleans `sympy.solve(eq, effort) ≠ []` and
  `sympy.solve(eq, flow) ≠ []` (`Element.is_constitutive_equation_solvable_for`);
  sympy being an external library, a `resistance` carries those two
  booleans directly.
* `float` initial values of stores never influence causality assignment;
  they are carried as `Int` for the worked examples.
-/

namespace OsgBondgraphs

/-- The error kinds raised by the engine (Python raises bare `Exception`s;
the constructors record which `raise` site fired and the data of its
message). -/
inductive Err where
  /-- `bondgraph.py`: element identifier reused. -/
  | duplicateElement (id : String)
  /-- `bondgraph.py`: a bond references an identifier not in the element set. -/
  | unknownElement (id : String)
  /-- `bondgraph.py`: `len(bonds) != len(set(bonds))`. -/
  | duplicateBonds
  /-- `element.py` `check_bonds`: wrong number of in- and outgoing power bonds. -/
  | portArity (id : String)
  /-- `element.py` `add_in_bond`/`add_out_bond`: "Bond ... does not contain element". -/
  | bondNotInElement (id : String)
  /-- `element.py` `add_in_bond`/`add_out_bond`: "Bond ... already in element". -/
  | bondAlreadyInElement (id : String)
  /-- `bond.py` set operations: "Causal conflict: causality already set for bond". -/
  | causalConflictSet (bondIndex : Nat)
  /-- `bond.py` set operations: "Unknown element name in bond". -/
  | unknownElementName (bondIndex : Nat)
  /-- `causalbg.py` propagation: "Causal conflict during propagation". -/
  | causalConflictProp (bondIndex : Nat)
  /-- `causalbg.py` phase 2: "Equation for ... not solvable at all."
  (the spec's `UnsolvableConstitutiveEquation`). -/
  | unsolvable (id : String)
  /-- Python `IndexError` (a bond index outside the bond store; unreachable
  for graphs produced by the builder). -/
  | indexError
  /-- Exhaustion of the iteration bound of the propagation fixed-point loop.
  The Python `while` loop has no bound; `propagateFixpoint` supplies more
  fuel than the loop can consume, and `propagateFixpointFuel_no_exhaustion`
  proves this error unreachable, so the two agree. -/
  | fuelExhausted
  deriving Repr, DecidableEq

/-- `bond.py` `Bond`: a directed edge `(start, end)` with construction
`index`, carrying the single causality mark as the pair of mutually
redundant fields `__effort_causality_direction` / `__flow_causality_direction`
(`endp` stands for Python's `__end`). -/
structure Bond where
  start : String
  endp : String
  index : Nat
  effortDir : Option (String × String)
  flowDir : Option (String × String)
  deriving Repr, DecidableEq

/-- `Bond.__init__`: a fresh bond has both causality fields `None`. -/
def Bond.mkBond (start endp : String) (index : Nat) : Bond :=
  ⟨start, endp, index, none, none⟩

/-- `Bond.is_causality_set`. -/
def Bond.isCausalitySet (b : Bond) : Bool :=
  b.effortDir.isSome && b.flowDir.isSome

/-- `Bond.set_effort_causality_direction_towards(el_name)`.
Note that the source compares index `[1]` of **both** stored directions
with `el_name`. -/
def Bond.setEffortCausalityDirectionTowards (b : Bond) (elName : String) :
    Except Err Bond :=
  if (match b.effortDir with | some d => d.2 != elName | none => false : Bool) then
    .error (.causalConflictSet b.index)
  else if (match b.flowDir with | some d => d.2 != elName | none => false : Bool) then
    .error (.causalConflictSet b.index)
  else if b.start = elName then
    .ok { b with effortDir := some (b.endp, elName), flowDir := some (elName, b.endp) }
  else if b.endp = elName then
    .ok { b with effortDir := some (b.start, elName), flowDir := some (elName, b.start) }
  else
    .error (.unknownElementName b.index)

/-- `Bond.set_effort_causality_direction_from(el_name)`.
The source compares index `[0]` of both stored directions with `el_name`. -/
def Bond.setEffortCausalityDirectionFrom (b : Bond) (elName : String) :
    Except Err Bond :=
  if (match b.effortDir with | some d => d.1 != elName | none => false : Bool) then
    .error (.causalConflictSet b.index)
  else if (match b.flowDir with | some d => d.1 != elName | none => false : Bool) then
    .error (.causalConflictSet b.index)
  else if b.start = elName then
    .ok { b with effortDir := some (elName, b.endp), flowDir := some (b.endp, elName) }
  else if b.endp = elName then
    .ok { b with effortDir := some (elName, b.start), flowDir := some (b.start, elName) }
  else
    .error (.unknownElementName b.index)

/-- `Bond.set_flow_causality_direction_towards(el_name)` — defined in the
source as a direct call to `set_effort_causality_direction_from`. -/
def Bond.setFlowCausalityDirectionTowards (b : Bond) (elName : String) :
    Except Err Bond :=
  b.setEffortCausalityDirectionFrom elName

/-- `Bond.set_flow_causality_direction_from(el_name)` — defined in the
source as a direct call to `set_effort_causality_direction_towards`. -/
def Bond.setFlowCausalityDirectionFrom (b : Bond) (elName : String) :
    Except Err Bond :=
  b.setEffortCausalityDirectionTowards elName

/-- The element variants of `element.py`. -/
inductive ElementKind where
  | capacitance (initialValue : Int)
  | inertance (initialValue : Int)
  /-- A resistance, carrying the modelled outcome of
  `is_constitutive_equation_solvable_for("effort")` resp. `("flow")`. -/
  | resistance (solvableForEffort solvableForFlow : Bool)
  | effortSource
  | flowSource
  | effortSensor
  | flowSensor
  | effortController
  | flowController
  | transformer
  | gyrator
  | commonEffortJunction
  | commonFlowJunction
  deriving Repr, DecidableEq

namespace ElementKind

/-- `Element.is_oneport`. -/
def isOnePort : ElementKind → Bool
  | .capacitance _ | .inertance _ | .resistance _ _ | .effortSource
  | .flowSource | .effortSensor | .flowSensor | .effortController
  | .flowController => true
  | _ => false

/-- `Element.is_twoport`. -/
def isTwoPort : ElementKind → Bool
  | .transformer | .gyrator => true
  | _ => false

/-- `Element.is_junction`. -/
def isJunction : ElementKind → Bool
  | .commonEffortJunction | .commonFlowJunction => true
  | _ => false

/-- `isinstance(e, Resistance)`. -/
def isResistance : ElementKind → Bool
  | .resistance _ _ => true
  | _ => false

/-- `isinstance(e, Capacitance)`. -/
def isCapacitance : ElementKind → Bool
  | .capacitance _ => true
  | _ => false

/-- `isinstance(e, Inertance)`. -/
def isInertance : ElementKind → Bool
  | .inertance _ => true
  | _ => false

/-- `isinstance(e, EffortSource)`. -/
def isEffortSource : ElementKind → Bool
  | .effortSource => true
  | _ => false

/-- `isinstance(e, FlowSource)`. -/
def isFlowSource : ElementKind → Bool
  | .flowSource => true
  | _ => false

/-- `isinstance(e, EffortSensor)`. -/
def isEffortSensor : ElementKind → Bool
  | .effortSensor => true
  | _ => false

/-- `isinstance(e, FlowSensor)`. -/
def isFlowSensor : ElementKind → Bool
  | .flowSensor => true
  | _ => false

/-- `isinstance(e, EffortController)`. -/
def isEffortController : ElementKind → Bool
  | .effortController => true
  | _ => false

/-- `isinstance(e, FlowController)`. -/
def isFlowController : ElementKind → Bool
  | .flowController => true
  | _ => false

/-- `isinstance(e, CommonEffortJunction)`. -/
def isCommonEffortJunction : ElementKind → Bool
  | .commonEffortJunction => true
  | _ => false

/-- `isinstance(e, CommonFlowJunction)`. -/
def isCommonFlowJunction : ElementKind → Bool
  | .commonFlowJunction => true
  | _ => false

/-- `isinstance(e, Transformer)`. -/
def isTransformer : ElementKind → Bool
  | .transformer => true
  | _ => false

/-- `isinstance(e, Gyrator)`. -/
def isGyrator : ElementKind → Bool
  | .gyrator => true
  | _ => false

/-- `Element.is_constitutive_equation_solvable_for("effort")` for a
resistance: whether `sympy.solve(eq(e,f), e)` is non-empty. Only ever
invoked on `Resistance` elements (the source raises otherwise). -/
def solvableForEffort : ElementKind → Bool
  | .resistance sE _ => sE
  | _ => false

/-- `Element.is_constitutive_equation_solvable_for("flow")` for a
resistance: whether `sympy.solve(eq(e,f), f)` is non-empty. -/
def solvableForFlow : ElementKind → Bool
  | .resistance _ sF => sF
  | _ => false

/-- `Element.is_constitutive_equation_invertible`: solvable for both. -/
def isConstitutiveEquationInvertible (k : ElementKind) : Bool :=
  k.solvableForEffort && k.solvableForFlow

end ElementKind

/-- `element.py` `Element`: identifier, variant, and the two incident-bond
lists `__in_bonds` / `__out_bonds` (as construction indices; see the file
header on object identity). -/
structure Element where
  identifier : String
  kind : ElementKind
  inBonds : List Nat
  outBonds : List Nat
  deriving Repr, DecidableEq

/-- `Element.get_bonds`: `self.__in_bonds + self.__out_bonds`. -/
def Element.getBonds (e : Element) : List Nat :=
  e.inBonds ++ e.outBonds

/-- `Element.add_in_bond`: requires the bond's end to be this element and
the bond not already in `__in_bonds`. -/
def Element.addInBond (e : Element) (b : Bond) : Except Err Element :=
  if e.identifier ≠ b.endp then .error (.bondNotInElement e.identifier)
  else if b.index ∈ e.inBonds then .error (.bondAlreadyInElement e.identifier)
  else .ok { e with inBonds := e.inBonds ++ [b.index] }

/-- `Element.add_out_bond`: requires the bond's start to be this element;
NOTE the duplicate check inspects `__in_bonds` (the source's line
`if bond in self.__in_bonds`), not `__out_bonds`. -/
def Element.addOutBond (e : Element) (b : Bond) : Except Err Element :=
  if e.identifier ≠ b.start then .error (.bondNotInElement e.identifier)
  else if b.index ∈ e.inBonds then .error (.bondAlreadyInElement e.identifier)
  else .ok { e with outBonds := e.outBonds ++ [b.index] }

/-- `Element.check_bonds`: arity rule per variant group. -/
def Element.checkBonds (e : Element) : Except Err Unit :=
  if e.kind.isOnePort && (e.inBonds.length + e.outBonds.length != 1) then
    .error (.portArity e.identifier)
  else if e.kind.isTwoPort && (e.inBonds.length + e.outBonds.length != 2) then
    .error (.portArity e.identifier)
  else if e.kind.isJunction && decide (e.inBonds.length + e.outBonds.length < 2) then
    .error (.portArity e.identifier)
  else .ok ()

/-- `bondgraph.py` `DirectedBondgraph`: the element registry (a dict with
insertion order, modelled as a list with unique identifiers) and the bond
store (indexed by construction order). -/
structure Bondgraph where
  elements : List Element
  bonds : List Bond
  deriving Repr, DecidableEq

/-- `DirectedBondgraph.__add_element`: reject a reused identifier, else
append (dict insertion order). -/
def addElement (els : List Element) (e : Element) : Except Err (List Element) :=
  if els.any (fun x => x.identifier == e.identifier) then
    .error (.duplicateElement e.identifier)
  else .ok (els ++ [e])

/-- The element-registration loop of `DirectedBondgraph.__init__`. -/
def addElements (elems : List Element) : Except Err (List Element) :=
  elems.foldlM addElement []

/-- In-place mutation of the element stored under identifier `k`
(`self.__elements[k].method(...)` in Python; identifiers are unique, so
replacing the first match is the dict update). -/
def updateElement (k : String) (f : Element → Except Err Element) :
    List Element → Except Err (List Element)
  | [] => .error (.unknownElement k)
  | e :: rest =>
    if e.identifier == k then
      (f e).map (· :: rest)
    else
      (updateElement k f rest).map (e :: ·)

/-- The per-pair body of `DirectedBondgraph.__add_bonds`: check both
endpoints are registered, create the bond with the running index, attach
it as out-bond of the start element and in-bond of the end element. -/
def addBondsGo (els : List Element) (bonds : List Bond) (idx : Nat) :
    List (String × String) → Except Err (List Element × List Bond)
  | [] => .ok (els, bonds)
  | (s, e) :: rest =>
    if ¬ els.any (fun x => x.identifier == s) then .error (.unknownElement s)
    else if ¬ els.any (fun x => x.identifier == e) then .error (.unknownElement e)
    else do
      let b := Bond.mkBond s e idx
      let els1 ← updateElement s (fun el => el.addOutBond b) els
      let els2 ← updateElement e (fun el => el.addInBond b) els1
      addBondsGo els2 (bonds ++ [b]) (idx + 1) rest

/-- `DirectedBondgraph.__add_bonds`: duplicate-pair check
(`len(bonds) != len(set(bonds))`), then the attachment loop. -/
def addBonds (els : List Element) (pairs : List (String × String)) :
    Except Err (List Element × List Bond) :=
  if pairs.Nodup then addBondsGo els [] 0 pairs
  else .error .duplicateBonds

/-- The arity-check loop of `DirectedBondgraph.__init__`. -/
def checkAllBonds : List Element → Except Err Unit
  | [] => .ok ()
  | e :: rest => do
    e.checkBonds
    checkAllBonds rest

/-! ## The propagation pass (`CausalBondgraph.__propagate_causalities`)

The four sections (0-junctions, 1-junctions, transformers, gyrators) share
one loop shape; they differ only in which direction view is read, which
set operation resolves an unmarked sibling bond, and which tuple component
must match for an already-marked sibling. The parameters below record
those differences; the concrete instantiation of each section is named
next to its source lines.
-/

/-- Which of the two stored direction fields a propagation section reads. -/
inductive DirView where
  | effort
  | flow
  deriving Repr, DecidableEq

/-- Read the chosen direction field. -/
def DirView.get : DirView → Bond → Option (String × String)
  | .effort, b => b.effortDir
  | .flow, b => b.flowDir

/-- The bond set operation a propagation section applies to an unmarked
sibling bond. -/
inductive SetOp where
  | effFrom
  | effTowards
  | floFrom
  | floTowards
  deriving Repr, DecidableEq

/-- Dispatch to the four `bond.py` set operations. -/
def SetOp.apply : SetOp → Bond → String → Except Err Bond
  | .effFrom, b, k => b.setEffortCausalityDirectionFrom k
  | .effTowards, b, k => b.setEffortCausalityDirectionTowards k
  | .floFrom, b, k => b.setFlowCausalityDirectionFrom k
  | .floTowards, b, k => b.setFlowCausalityDirectionTowards k

/-- For an already-marked sibling, the source accepts the mark iff the
tuple component compared with the element key matches the polarity of the
set operation: `..._from`-style sections compare component `[0]`,
`..._towards`-style sections compare component `[1]`. -/
def SetOp.passFst : SetOp → Bool
  | .effFrom => true
  | .floFrom => true
  | .effTowards => false
  | .floTowards => false

/-- The inner loop body of a propagation section: one sibling bond `j` of
the triggering bond (the source's
`for other_bond in filter(lambda b: b != bond, element.get_bonds())`).
Unmarked: apply the set operation and record a change. Marked with the
matching component equal to the element key: pass. Otherwise: "Causal
conflict during propagation". -/
def propOther (v : DirView) (op : SetOp) (k : String)
    (st : Bool × List Bond) (j : Nat) : Except Err (Bool × List Bond) :=
  match st.2[j]? with
  | none => .error .indexError
  | some ob =>
    match v.get ob with
    | none => do
      let ob' ← op.apply ob k
      .ok (true, st.2.set j ob')
    | some d =>
      if (if op.passFst then d.1 == k else d.2 == k) then .ok st
      else .error (.causalConflictProp ob.index)

/-- The outer loop body for a 0- or 1-junction (`causalbg.py` lines 21–50):
if the read direction of bond `i` ends at the junction
(`eff_caus_dir[1] == ekey`), resolve all sibling bonds. -/
def propJunctionBond (v : DirView) (op : SetOp) (k : String)
    (bondIdxs : List Nat) (st : Bool × List Bond) (i : Nat) :
    Except Err (Bool × List Bond) :=
  match st.2[i]? with
  | none => .error .indexError
  | some b =>
    match v.get b with
    | some d =>
      if d.2 == k then (bondIdxs.filter (· ≠ i)).foldlM (propOther v op k) st
      else .ok st
    | none => .ok st

/-- The outer loop body for a transformer or gyrator (`causalbg.py` lines
52–102): both effort-direction orientations of bond `i` trigger, with the
section-specific operations `op1` (for `effort_caus_dir[1] == ekey`) and
`op2` (for `effort_caus_dir[0] == ekey`). -/
def propTwoPortBond (op1 op2 : SetOp) (k : String)
    (bondIdxs : List Nat) (st : Bool × List Bond) (i : Nat) :
    Except Err (Bool × List Bond) :=
  match st.2[i]? with
  | none => .error .indexError
  | some b =>
    match b.effortDir with
    | some d =>
      if d.2 == k then
        (bondIdxs.filter (· ≠ i)).foldlM (propOther .effort op1 k) st
      else if d.1 == k then
        (bondIdxs.filter (· ≠ i)).foldlM (propOther .effort op2 k) st
      else .ok st
    | none => .ok st

/-- The effort-junction section: for each `CommonEffortJunction`, apply
`propJunctionBond` to every incident bond, reading effort directions and
resolving unmarked siblings with `set_effort_causality_direction_from`. -/
def propSectionCEJ (els : List Element) (st : Bool × List Bond) :
    Except Err (Bool × List Bond) :=
  (els.filter (fun e => e.kind.isCommonEffortJunction)).foldlM
    (fun st e =>
      e.getBonds.foldlM (propJunctionBond .effort .effFrom e.identifier e.getBonds) st)
    st

/-- The flow-junction section: dual, reading flow directions and resolving
with `set_flow_causality_direction_from`. -/
def propSectionCFJ (els : List Element) (st : Bool × List Bond) :
    Except Err (Bool × List Bond) :=
  (els.filter (fun e => e.kind.isCommonFlowJunction)).foldlM
    (fun st e =>
      e.getBonds.foldlM (propJunctionBond .flow .floFrom e.identifier e.getBonds) st)
    st

/-- The transformer section. -/
def propSectionTF (els : List Element) (st : Bool × List Bond) :
    Except Err (Bool × List Bond) :=
  (els.filter (fun e => e.kind.isTransformer)).foldlM
    (fun st e =>
      e.getBonds.foldlM (propTwoPortBond .effFrom .effTowards e.identifier e.getBonds) st)
    st

/-- The gyrator section (cross-coupled: the operations of the two branches
are swapped relative to the transformer). -/
def propSectionGY (els : List Element) (st : Bool × List Bond) :
    Except Err (Bool × List Bond) :=
  (els.filter (fun e => e.kind.isGyrator)).foldlM
    (fun st e =>
      e.getBonds.foldlM (propTwoPortBond .effTowards .effFrom e.identifier e.getBonds) st)
    st

/-- `CausalBondgraph.__propagate_causalities`: run the four sections in
source order, returning whether any bond was newly marked. -/
def propagateCausalities (els : List Element) (bonds : List Bond) :
    Except Err (Bool × List Bond) := do
  let st1 ← propSectionCEJ els (false, bonds)
  let st2 ← propSectionCFJ els st1
  let st3 ← propSectionTF els st2
  let st4 ← propSectionGY els st3
  .ok st4

/-- Number of unset direction fields of one bond. -/
def bondWeight (b : Bond) : Nat :=
  (if b.effortDir.isNone then 1 else 0) + (if b.flowDir.isNone then 1 else 0)

/-- Count of still-unset direction fields; strictly decreases on every
propagation pass that reports a change, bounding the
`while self.__propagate_causalities(): pass` loop. -/
def unsetMeasure (bonds : List Bond) : Nat :=
  (bonds.map bondWeight).sum

/-- The `while self.__propagate_causalities(): pass` loop, with an explicit
iteration bound (see `Err.fuelExhausted`). -/
def propagateFixpointFuel (els : List Element) :
    Nat → List Bond → Except Err (List Bond)
  | 0, _ => .error .fuelExhausted
  | fuel + 1, bonds =>
    match propagateCausalities els bonds with
    | .error err => .error err
    | .ok (false, bonds') => .ok bonds'
    | .ok (true, bonds') => propagateFixpointFuel els fuel bonds'

/-- The fixed-point loop with sufficient fuel: a changing pass strictly
decreases `unsetMeasure`, so `unsetMeasure bonds + 1` passes always reach
the fixed point. -/
def propagateFixpoint (els : List Element) (bonds : List Bond) :
    Except Err (List Bond) :=
  propagateFixpointFuel els (unsetMeasure bonds + 1) bonds

/-! ## The four phases of `CausalBondgraph._assign_causalities` -/

/-- One forced assignment of phase 1: apply a set operation to the bond at
index `i` on behalf of element `k`. -/
def phase1Apply (op : Bond → String → Except Err Bond) (k : String)
    (bonds : List Bond) (i : Nat) : Except Err (List Bond) :=
  match bonds[i]? with
  | none => .error .indexError
  | some b => do
    let b' ← op b k
    .ok (bonds.set i b')

/-- One of the six phase-1 loops: for every element of the selected kind,
apply the forced set operation to each of its bonds. -/
def phase1Section (pred : ElementKind → Bool)
    (op : Bond → String → Except Err Bond)
    (els : List Element) (bonds : List Bond) : Except Err (List Bond) :=
  (els.filter (fun e => pred e.kind)).foldlM
    (fun bonds e => e.getBonds.foldlM (phase1Apply op e.identifier) bonds)
    bonds

/-- Phase 1 (`causalbg.py` lines 135–164): forced assignments for sources,
sensors and controllers, in source order. -/
def phase1 (els : List Element) (bonds : List Bond) : Except Err (List Bond) := do
  let b1 ← phase1Section ElementKind.isEffortSource
    Bond.setEffortCausalityDirectionFrom els bonds
  let b2 ← phase1Section ElementKind.isFlowSource
    Bond.setFlowCausalityDirectionFrom els b1
  let b3 ← phase1Section ElementKind.isEffortSensor
    Bond.setFlowCausalityDirectionFrom els b2
  let b4 ← phase1Section ElementKind.isFlowSensor
    Bond.setEffortCausalityDirectionFrom els b3
  let b5 ← phase1Section ElementKind.isEffortController
    Bond.setEffortCausalityDirectionFrom els b4
  phase1Section ElementKind.isFlowController
    Bond.setFlowCausalityDirectionFrom els b5

/-- The phase-2 body for one resistance element (`causalbg.py` lines
176–185): for each of its bonds, if the constitutive equation is not
invertible, mark the direction of the variable it is solvable for away
from the resistance, or fail if solvable for neither. NOTE: no check that
the bond is still unmarked, and no propagation inside the loop. -/
def phase2ElemStep (e : Element) (bonds : List Bond) : Except Err (List Bond) :=
  e.getBonds.foldlM
    (fun bonds i =>
      match bonds[i]? with
      | none => .error .indexError
      | some b =>
        if ¬ e.kind.isConstitutiveEquationInvertible then
          if e.kind.solvableForEffort then do
            let b' ← b.setEffortCausalityDirectionFrom e.identifier
            .ok (bonds.set i b')
          else if e.kind.solvableForFlow then do
            let b' ← b.setFlowCausalityDirectionFrom e.identifier
            .ok (bonds.set i b')
          else .error (.unsolvable e.identifier)
        else .ok bonds)
    bonds

/-- Phase 2: the loop over all `Resistance` elements. A single
propagation fixed point follows the whole loop (see `assignCausalities`). -/
def phase2 (els : List Element) (bonds : List Bond) : Except Err (List Bond) :=
  (els.filter (fun e => e.kind.isResistance)).foldlM
    (fun bonds e => phase2ElemStep e bonds) bonds

/-- The phase-3 loop for one storage kind (`causalbg.py` lines 194–210):
for every element of the kind and each of its bonds still unmarked, apply
the preferred-causality set operation and immediately propagate to a
fixed point. -/
def phase3Section (pred : ElementKind → Bool)
    (op : Bond → String → Except Err Bond)
    (els : List Element) (bonds : List Bond) : Except Err (List Bond) :=
  (els.filter (fun e => pred e.kind)).foldlM
    (fun bonds e =>
      e.getBonds.foldlM
        (fun bonds i =>
          match bonds[i]? with
          | none => .error .indexError
          | some b =>
            if b.isCausalitySet then .ok bonds
            else do
              let b' ← op b e.identifier
              propagateFixpoint els (bonds.set i b'))
        bonds)
    bonds

/-- `DirectedBondgraph.get_bonds` returns, for each element in registry
order, its in-bond list; these are the construction indices it exposes. -/
def getBondIdxs (els : List Element) : List Nat :=
  els.flatMap (fun e => e.inBonds)

/-- Phase 4 (`causalbg.py` lines 215–221): for every bond of
`get_bonds()` still unmarked, emit a warning (recorded as the bond's
store position), arbitrarily mark the bond's end element as effort-input,
and propagate to a fixed point. -/
def phase4Step (els : List Element) (st : List Bond × List Nat) (i : Nat) :
    Except Err (List Bond × List Nat) :=
  match st.1[i]? with
  | none => .error .indexError
  | some b =>
    if b.isCausalitySet then .ok st
    else do
      let b' ← b.setEffortCausalityDirectionTowards b.endp
      let bonds' ← propagateFixpoint els (st.1.set i b')
      .ok (bonds', st.2 ++ [i])

def phase4 (els : List Element) (bonds : List Bond) :
    Except Err (List Bond × List Nat) :=
  (getBondIdxs els).foldlM (phase4Step els) (bonds, [])

/-- `CausalBondgraph._assign_causalities`: phase 1, propagate; phase 2,
propagate; phase 3 (capacitances with preferred flow-in, then inertances
with preferred effort-in, each assignment followed by propagation);
phase 4 with its warnings. -/
def assignCausalities (els : List Element) (bonds : List Bond) :
    Except Err (List Bond × List Nat) := do
  let b1 ← phase1 els bonds
  let b1f ← propagateFixpoint els b1
  let b2 ← phase2 els b1f
  let b2f ← propagateFixpoint els b2
  let b3 ← phase3Section ElementKind.isCapacitance
    Bond.setFlowCausalityDirectionTowards els b2f
  let b3i ← phase3Section ElementKind.isInertance
    Bond.setEffortCausalityDirectionTowards els b3
  phase4 els b3i

/-- `DirectedBondgraph.__init__` from the caller-supplied element list and
`(start, end)` pairs: register elements, build and attach bonds, check
arities, assign causalities. Returns the finished graph and the list of
phase-4 warnings. -/
def buildBondgraph (elems : List Element) (pairs : List (String × String)) :
    Except Err (Bondgraph × List Nat) := do
  let els ← addElements elems
  let (els2, bonds) ← addBonds els pairs
  checkAllBonds els2
  let (bonds', warns) ← assignCausalities els2 bonds
  .ok (⟨els2, bonds'⟩, warns)

/-- Construction from bare (identifier, kind) specifications: Python
`Element.__init__` always starts with empty bond lists. -/
def Bondgraph.construct (specs : List (String × ElementKind))
    (pairs : List (String × String)) : Except Err (Bondgraph × List Nat) :=
  buildBondgraph (specs.map (fun p => ⟨p.1, p.2, [], []⟩)) pairs

/-- `DirectedBondgraph.get_bonds`: the concatenation of every element's
in-bond list, resolved in the bond store. -/
def Bondgraph.getBonds (g : Bondgraph) : List Bond :=
  (getBondIdxs g.elements).filterMap (fun i => g.bonds[i]?)


/-! ## Basic facts about the bond set operations -/

/-- The endpoint of `b` other than `k`, as computed by
`set_effort_causality_direction_from` (for `k` an endpoint of `b`). -/
def otherEnd (b : Bond) (k : String) : String :=
  if b.start = k then b.endp else b.start

/-- Reachable bonds carry compatible fields: either unmarked, or both
direction views are set to the two (antiparallel) orientations of the
bond's endpoint pair. -/
def BondWF (b : Bond) : Prop :=
  (b.effortDir = none ∧ b.flowDir = none) ∨
  (b.effortDir = some (b.start, b.endp) ∧ b.flowDir = some (b.endp, b.start)) ∨
  (b.effortDir = some (b.endp, b.start) ∧ b.flowDir = some (b.start, b.endp))

/-- Evolution order on one bond: endpoints and index are fixed, and set
direction fields are never changed. -/
def bondLe (b b' : Bond) : Prop :=
  b'.start = b.start ∧ b'.endp = b.endp ∧ b'.index = b.index ∧
  (∀ d, b.effortDir = some d → b'.effortDir = some d) ∧
  (∀ d, b.flowDir = some d → b'.flowDir = some d)

theorem bondLe_refl (b : Bond) : bondLe b b :=
  ⟨rfl, rfl, rfl, fun _ h => h, fun _ h => h⟩

theorem bondLe_trans {a b c : Bond} (h1 : bondLe a b) (h2 : bondLe b c) :
    bondLe a c := by
  obtain ⟨s1, e1, i1, f1, g1⟩ := h1
  obtain ⟨s2, e2, i2, f2, g2⟩ := h2
  exact ⟨s2.trans s1, e2.trans e1, i2.trans i1,
    fun d h => f2 d (f1 d h), fun d h => g2 d (g1 d h)⟩

theorem setEffortTowards_ok {b : Bond} {k : String} {b' : Bond}
    (h : b.setEffortCausalityDirectionTowards k = .ok b') :
    (∀ d, b.effortDir = some d → d.2 = k) ∧
    (∀ d, b.flowDir = some d → d.2 = k) ∧
    ((b.start = k ∧
        b' = { b with effortDir := some (b.endp, k), flowDir := some (k, b.endp) }) ∨
     (b.start ≠ k ∧ b.endp = k ∧
        b' = { b with effortDir := some (b.start, k), flowDir := some (k, b.start) })) := by
  unfold Bond.setEffortCausalityDirectionTowards at h
  split at h
  · exact absurd h (by simp)
  · split at h
    · exact absurd h (by simp)
    · split at h
      · refine ⟨?_, ?_, Or.inl ⟨by assumption, by exact (Except.ok.injEq _ _).mp h |>.symm ▸ rfl⟩⟩
        · intro d hd
          rename_i hcond _ _
          simp [hd] at hcond
          exact hcond
        · intro d hd
          rename_i hcond _
          simp [hd] at hcond
          exact hcond
      · split at h
        · refine ⟨?_, ?_, Or.inr ⟨by assumption, by assumption,
            by exact (Except.ok.injEq _ _).mp h |>.symm ▸ rfl⟩⟩
          · intro d hd
            rename_i hcond _ _ _
            simp [hd] at hcond
            exact hcond
          · intro d hd
            rename_i hcond _ _
            simp [hd] at hcond
            exact hcond
        · exact absurd h (by simp)

theorem setEffortFrom_ok {b : Bond} {k : String} {b' : Bond}
    (h : b.setEffortCausalityDirectionFrom k = .ok b') :
    (∀ d, b.effortDir = some d → d.1 = k) ∧
    (∀ d, b.flowDir = some d → d.1 = k) ∧
    ((b.start = k ∧
        b' = { b with effortDir := some (k, b.endp), flowDir := some (b.endp, k) }) ∨
     (b.start ≠ k ∧ b.endp = k ∧
        b' = { b with effortDir := some (k, b.start), flowDir := some (b.start, k) })) := by
  unfold Bond.setEffortCausalityDirectionFrom at h
  split at h
  · exact absurd h (by simp)
  · split at h
    · exact absurd h (by simp)
    · split at h
      · refine ⟨?_, ?_, Or.inl ⟨by assumption, by exact (Except.ok.injEq _ _).mp h |>.symm ▸ rfl⟩⟩
        · intro d hd
          rename_i hcond _ _
          simp [hd] at hcond
          exact hcond
        · intro d hd
          rename_i hcond _
          simp [hd] at hcond
          exact hcond
      · split at h
        · refine ⟨?_, ?_, Or.inr ⟨by assumption, by assumption,
            by exact (Except.ok.injEq _ _).mp h |>.symm ▸ rfl⟩⟩
          · intro d hd
            rename_i hcond _ _ _
            simp [hd] at hcond
            exact hcond
          · intro d hd
            rename_i hcond _ _
            simp [hd] at hcond
            exact hcond
        · exact absurd h (by simp)

/-- A successful `towards` marks `k` (an endpoint) as effort-input, with
the expected stored values. -/
theorem setEffortTowards_result {b : Bond} {k : String} {b' : Bond}
    (h : b.setEffortCausalityDirectionTowards k = .ok b') :
    b'.start = b.start ∧ b'.endp = b.endp ∧ b'.index = b.index ∧
    b'.effortDir = some (otherEnd b k, k) ∧
    b'.flowDir = some (k, otherEnd b k) := by
  obtain ⟨-, -, hc⟩ := setEffortTowards_ok h
  unfold otherEnd
  rcases hc with ⟨hs, rfl⟩ | ⟨hs, he, rfl⟩
  · simp [hs]
  · simp [hs, he]

/-- A successful `from` marks `k` (an endpoint) as effort-output, with the
expected stored values. -/
theorem setEffortFrom_result {b : Bond} {k : String} {b' : Bond}
    (h : b.setEffortCausalityDirectionFrom k = .ok b') :
    b'.start = b.start ∧ b'.endp = b.endp ∧ b'.index = b.index ∧
    b'.effortDir = some (k, otherEnd b k) ∧
    b'.flowDir = some (otherEnd b k, k) := by
  obtain ⟨-, -, hc⟩ := setEffortFrom_ok h
  unfold otherEnd
  rcases hc with ⟨hs, rfl⟩ | ⟨hs, he, rfl⟩
  · simp [hs]
  · simp [hs, he]

/-- Successful set operations preserve well-formedness. -/
theorem setEffortTowards_wf {b : Bond} {k : String} {b' : Bond}
    (h : b.setEffortCausalityDirectionTowards k = .ok b') : BondWF b' := by
  obtain ⟨-, -, hc⟩ := setEffortTowards_ok h
  rcases hc with ⟨hs, rfl⟩ | ⟨hs, he, rfl⟩
  · exact Or.inr (Or.inr (by simp [hs]))
  · exact Or.inr (Or.inl (by simp [he]))

theorem setEffortFrom_wf {b : Bond} {k : String} {b' : Bond}
    (h : b.setEffortCausalityDirectionFrom k = .ok b') : BondWF b' := by
  obtain ⟨-, -, hc⟩ := setEffortFrom_ok h
  rcases hc with ⟨hs, rfl⟩ | ⟨hs, he, rfl⟩
  · exact Or.inr (Or.inl (by simp [hs]))
  · exact Or.inr (Or.inr (by simp [he]))

/-- On a well-formed bond, a successful set operation never changes a
direction field that was already set: an already-marked bond passes the
conflict checks only if it is a marked self-loop carrying exactly the
values the operation would write again. -/
theorem setEffortTowards_le {b : Bond} {k : String} {b' : Bond}
    (hwf : BondWF b) (h : b.setEffortCausalityDirectionTowards k = .ok b') :
    bondLe b b' := by
  obtain ⟨hce, hcf, hc⟩ := setEffortTowards_ok h
  rcases hwf with ⟨he, hf⟩ | ⟨he, hf⟩ | ⟨he, hf⟩
  · rcases hc with ⟨hs, rfl⟩ | ⟨hs, hee, rfl⟩ <;>
      exact ⟨rfl, rfl, rfl, fun d hd => by simp [he] at hd, fun d hd => by simp [hf] at hd⟩
  · have h1 : b.endp = k := hce _ he
    have h2 : b.start = k := hcf _ hf
    rcases hc with ⟨hs, rfl⟩ | ⟨hs, hee, rfl⟩
    · exact ⟨rfl, rfl, rfl,
        fun d hd => by simp [he] at hd; simp [← hd, h1, h2],
        fun d hd => by simp [hf] at hd; simp [← hd, h1, h2]⟩
    · exact absurd h2 hs
  · have h1 : b.start = k := hce _ he
    have h2 : b.endp = k := hcf _ hf
    rcases hc with ⟨hs, rfl⟩ | ⟨hs, hee, rfl⟩
    · exact ⟨rfl, rfl, rfl,
        fun d hd => by simp [he] at hd; simp [← hd, h1, h2],
        fun d hd => by simp [hf] at hd; simp [← hd, h1, h2]⟩
    · exact absurd h1 hs

theorem setEffortFrom_le {b : Bond} {k : String} {b' : Bond}
    (hwf : BondWF b) (h : b.setEffortCausalityDirectionFrom k = .ok b') :
    bondLe b b' := by
  obtain ⟨hce, hcf, hc⟩ := setEffortFrom_ok h
  rcases hwf with ⟨he, hf⟩ | ⟨he, hf⟩ | ⟨he, hf⟩
  · rcases hc with ⟨hs, rfl⟩ | ⟨hs, hee, rfl⟩ <;>
      exact ⟨rfl, rfl, rfl, fun d hd => by simp [he] at hd, fun d hd => by simp [hf] at hd⟩
  · have h1 : b.start = k := hce _ he
    have h2 : b.endp = k := hcf _ hf
    rcases hc with ⟨hs, rfl⟩ | ⟨hs, hee, rfl⟩
    · exact ⟨rfl, rfl, rfl,
        fun d hd => by simp [he] at hd; simp [← hd, h1, h2],
        fun d hd => by simp [hf] at hd; simp [← hd, h1, h2]⟩
    · exact absurd h1 hs
  · have h1 : b.endp = k := hce _ he
    have h2 : b.start = k := hcf _ hf
    rcases hc with ⟨hs, rfl⟩ | ⟨hs, hee, rfl⟩
    · exact ⟨rfl, rfl, rfl,
        fun d hd => by simp [he] at hd; simp [← hd, h1, h2],
        fun d hd => by simp [hf] at hd; simp [← hd, h1, h2]⟩
    · exact absurd h2 hs

/-- All four set operations, via `SetOp.apply`: structure preserved, both
direction fields set afterwards. -/
theorem setOp_apply_result {op : SetOp} {b : Bond} {k : String} {b' : Bond}
    (h : op.apply b k = .ok b') :
    b'.start = b.start ∧ b'.endp = b.endp ∧ b'.index = b.index ∧
    b'.effortDir.isSome ∧ b'.flowDir.isSome := by
  cases op <;>
    simp only [SetOp.apply, Bond.setFlowCausalityDirectionFrom,
      Bond.setFlowCausalityDirectionTowards] at h
  case effFrom =>
    obtain ⟨h1, h2, h3, h4, h5⟩ := setEffortFrom_result h
    exact ⟨h1, h2, h3, by simp [h4], by simp [h5]⟩
  case effTowards =>
    obtain ⟨h1, h2, h3, h4, h5⟩ := setEffortTowards_result h
    exact ⟨h1, h2, h3, by simp [h4], by simp [h5]⟩
  case floFrom =>
    obtain ⟨h1, h2, h3, h4, h5⟩ := setEffortTowards_result h
    exact ⟨h1, h2, h3, by simp [h4], by simp [h5]⟩
  case floTowards =>
    obtain ⟨h1, h2, h3, h4, h5⟩ := setEffortFrom_result h
    exact ⟨h1, h2, h3, by simp [h4], by simp [h5]⟩

theorem setOp_apply_le {op : SetOp} {b : Bond} {k : String} {b' : Bond}
    (hwf : BondWF b) (h : op.apply b k = .ok b') : bondLe b b' := by
  cases op <;>
    simp only [SetOp.apply, Bond.setFlowCausalityDirectionFrom,
      Bond.setFlowCausalityDirectionTowards] at h
  case effFrom => exact setEffortFrom_le hwf h
  case effTowards => exact setEffortTowards_le hwf h
  case floFrom => exact setEffortTowards_le hwf h
  case floTowards => exact setEffortFrom_le hwf h

theorem setOp_apply_wf {op : SetOp} {b : Bond} {k : String} {b' : Bond}
    (h : op.apply b k = .ok b') : BondWF b' := by
  cases op <;>
    simp only [SetOp.apply, Bond.setFlowCausalityDirectionFrom,
      Bond.setFlowCausalityDirectionTowards] at h
  case effFrom => exact setEffortFrom_wf h
  case effTowards => exact setEffortTowards_wf h
  case floFrom => exact setEffortTowards_wf h
  case floTowards => exact setEffortFrom_wf h

/-! ## State-level invariants and the generic fold lemmas -/

/-- Every stored bond is well-formed. -/
def WFbonds (bs : List Bond) : Prop := ∀ b ∈ bs, BondWF b

/-- Evolution order on bond stores: same length, pointwise `bondLe`. -/
def bondsLe (bs bs' : List Bond) : Prop :=
  bs.length = bs'.length ∧
  ∀ (i : Nat) (b : Bond), bs[i]? = some b → ∃ b', bs'[i]? = some b' ∧ bondLe b b'

theorem bondsLe_refl (bs : List Bond) : bondsLe bs bs :=
  ⟨rfl, fun _ b h => ⟨b, h, bondLe_refl b⟩⟩

theorem bondsLe_trans {a b c : List Bond} (h1 : bondsLe a b) (h2 : bondsLe b c) :
    bondsLe a c := by
  refine ⟨h1.1.trans h2.1, fun i x hx => ?_⟩
  obtain ⟨y, hy, hxy⟩ := h1.2 i x hx
  obtain ⟨z, hz, hyz⟩ := h2.2 i y hy
  exact ⟨z, hz, bondLe_trans hxy hyz⟩

/-- Setting position `j` to an evolution of the bond stored there is an
evolution of the store. -/
theorem bondsLe_set {bs : List Bond} {j : Nat} {b b' : Bond}
    (hj : bs[j]? = some b) (hle : bondLe b b') : bondsLe bs (bs.set j b') := by
  refine ⟨(List.length_set bs j b').symm, fun i x hx => ?_⟩
  by_cases hij : j = i
  · subst hij
    have hx' : x = b := by rw [hj] at hx; exact (Option.some.injEq _ _).mp hx.symm
    subst hx'
    exact ⟨b', List.getElem?_set_eq (List.getElem?_eq_some.mp hj).1, hle⟩
  · exact ⟨x, by rw [List.getElem?_set_ne hij]; exact hx, bondLe_refl x⟩

theorem wfBonds_set {bs : List Bond} {j : Nat} {b' : Bond}
    (hwf : WFbonds bs) (hb' : BondWF b') : WFbonds (bs.set j b') := by
  intro x hx
  rcases List.mem_or_eq_of_mem_set hx with h | rfl
  · exact hwf x h
  · exact hb'

/-- Replacing a stored bond by a strictly lighter one strictly decreases
the measure. -/
theorem unsetMeasure_set_lt : ∀ (bs : List Bond) (j : Nat) {b b' : Bond},
    bs[j]? = some b → bondWeight b' < bondWeight b →
    unsetMeasure (bs.set j b') < unsetMeasure bs := by
  intro bs
  induction bs with
  | nil => intro j b b' h hw; simp at h
  | cons x xs ih =>
    intro j b b' hj hw
    cases j with
    | zero =>
      simp at hj
      subst hj
      simp [unsetMeasure, List.set]
      omega
    | succ j =>
      simp at hj
      have := ih j hj hw
      simp [unsetMeasure, List.set] at this ⊢
      omega

/-- The per-pass evolution relation: the store evolves pointwise, and
either nothing happened (flag and store unchanged) or the flag is `true`
and the measure strictly dropped. -/
def Rprop (s s' : Bool × List Bond) : Prop :=
  bondsLe s.2 s'.2 ∧
  ((s'.1 = s.1 ∧ s'.2 = s.2) ∨ (s'.1 = true ∧ unsetMeasure s'.2 < unsetMeasure s.2))

theorem Rprop_refl (s : Bool × List Bond) : Rprop s s :=
  ⟨bondsLe_refl _, Or.inl ⟨rfl, rfl⟩⟩

theorem Rprop_trans {a b c : Bool × List Bond} (h1 : Rprop a b) (h2 : Rprop b c) :
    Rprop a c := by
  refine ⟨bondsLe_trans h1.1 h2.1, ?_⟩
  rcases h1.2 with ⟨e1, e2⟩ | ⟨t1, m1⟩
  · rcases h2.2 with ⟨f1, f2⟩ | ⟨t2, m2⟩
    · exact Or.inl ⟨f1.trans e1, f2.trans e2⟩
    · exact Or.inr ⟨t2, e2 ▸ m2⟩
  · rcases h2.2 with ⟨f1, f2⟩ | ⟨t2, m2⟩
    · exact Or.inr ⟨f1.trans t1, f2 ▸ m1⟩
    · exact Or.inr ⟨t2, m2.trans m1⟩

/-- A successful monadic fold of invariant-preserving, `R`-evolving steps
preserves the invariant and evolves by `R`. -/
theorem foldlM_inv {σ α : Type} {f : σ → α → Except Err σ} {I : σ → Prop}
    {R : σ → σ → Prop} (hrefl : ∀ s, R s s)
    (htrans : ∀ a b c, R a b → R b c → R a c)
    (hf : ∀ s a s', I s → f s a = .ok s' → I s' ∧ R s s') :
    ∀ (l : List α) (s s' : σ), I s → l.foldlM f s = .ok s' → I s' ∧ R s s' := by
  intro l
  induction l with
  | nil =>
    intro s s' hi h
    simp only [List.foldlM_nil] at h
    cases h
    exact ⟨hi, hrefl s⟩
  | cons a l ih =>
    intro s s' hi h
    simp only [List.foldlM_cons] at h
    cases ht : f s a with
    | error e => rw [ht] at h; exact absurd h (by simp [Bind.bind, Except.bind])
    | ok t =>
      rw [ht] at h
      simp only [Bind.bind, Except.bind] at h
      obtain ⟨hit, hst⟩ := hf s a t hi ht
      obtain ⟨his, hts⟩ := ih t s' hit h
      exact ⟨his, htrans _ _ _ hst hts⟩

/-- Every list entry of a successful fold was processed successfully at
some intermediate state between the initial and final states. -/
theorem foldlM_mem {σ α : Type} {f : σ → α → Except Err σ} {I : σ → Prop}
    {R : σ → σ → Prop} (hrefl : ∀ s, R s s)
    (htrans : ∀ a b c, R a b → R b c → R a c)
    (hf : ∀ s a s', I s → f s a = .ok s' → I s' ∧ R s s') :
    ∀ (l : List α) (s s' : σ), I s → l.foldlM f s = .ok s' → ∀ a ∈ l,
      ∃ s1 s2, I s1 ∧ R s s1 ∧ f s1 a = .ok s2 ∧ R s2 s' := by
  intro l
  induction l with
  | nil => intro s s' hi h a ha; exact absurd ha (List.not_mem_nil a)
  | cons b l ih =>
    intro s s' hi h a ha
    simp only [List.foldlM_cons] at h
    cases ht : f s b with
    | error e => rw [ht] at h; exact absurd h (by simp [Bind.bind, Except.bind])
    | ok t =>
      rw [ht] at h
      simp only [Bind.bind, Except.bind] at h
      obtain ⟨hit, hst⟩ := hf s b t hi ht
      rcases List.mem_cons.mp ha with rfl | hal
      · exact ⟨s, t, hi, hrefl s, ht, (foldlM_inv hrefl htrans hf l t s' hit h).2⟩
      · obtain ⟨s1, s2, h1, h2, h3, h4⟩ := ih t s' hit h a hal
        exact ⟨s1, s2, h1, htrans _ _ _ hst h2, h3, h4⟩

/-! ## Invariant preservation along a propagation pass -/

theorem propOther_step {v : DirView} {op : SetOp} {k : String} :
    ∀ (st : Bool × List Bond) (j : Nat) (st' : Bool × List Bond),
    WFbonds st.2 → propOther v op k st j = .ok st' →
    WFbonds st'.2 ∧ Rprop st st' := by
  intro st j st' hwf h
  unfold propOther at h
  cases hj : st.2[j]? with
  | none => rw [hj] at h; exact absurd h (by simp)
  | some ob =>
    rw [hj] at h
    dsimp only at h
    cases hv : v.get ob with
    | none =>
      rw [hv] at h
      dsimp only at h
      cases hap : op.apply ob k with
      | error e => rw [hap] at h; exact absurd h (by simp [Bind.bind, Except.bind])
      | ok ob' =>
        rw [hap] at h
        simp only [Bind.bind, Except.bind] at h
        cases h
        have hwfob : BondWF ob := hwf ob (List.getElem?_mem hj)
        have hle : bondLe ob ob' := setOp_apply_le hwfob hap
        obtain ⟨-, -, -, hse, hsf⟩ := setOp_apply_result hap
        refine ⟨wfBonds_set hwf (setOp_apply_wf hap),
          bondsLe_set hj hle, Or.inr ⟨rfl, ?_⟩⟩
        apply unsetMeasure_set_lt st.2 j hj
        have h1 : bondWeight ob' = 0 := by
          unfold bondWeight
          obtain ⟨d1, hd1⟩ := Option.isSome_iff_exists.mp hse
          obtain ⟨d2, hd2⟩ := Option.isSome_iff_exists.mp hsf
          simp [hd1, hd2]
        have h2 : 0 < bondWeight ob := by
          unfold bondWeight
          cases v with
          | effort => simp [DirView.get] at hv; simp [hv]
          | flow => simp [DirView.get] at hv; simp [hv]
        omega
    | some d =>
      rw [hv] at h
      dsimp only at h
      cases hcond : (if op.passFst = true then d.1 == k else d.2 == k) with
      | true =>
        rw [hcond, if_pos rfl] at h
        cases h
        exact ⟨hwf, Rprop_refl st⟩
      | false =>
        rw [hcond, if_neg (by simp)] at h
        exact absurd h (by simp)

theorem propJunctionBond_step {v : DirView} {op : SetOp} {k : String}
    {bondIdxs : List Nat} :
    ∀ (st : Bool × List Bond) (i : Nat) (st' : Bool × List Bond),
    WFbonds st.2 → propJunctionBond v op k bondIdxs st i = .ok st' →
    WFbonds st'.2 ∧ Rprop st st' := by
  intro st i st' hwf h
  unfold propJunctionBond at h
  cases hj : st.2[i]? with
  | none => rw [hj] at h; exact absurd h (by simp)
  | some b =>
    rw [hj] at h
    dsimp only at h
    cases hv : v.get b with
    | none => rw [hv] at h; dsimp only at h; cases h; exact ⟨hwf, Rprop_refl _⟩
    | some d =>
      rw [hv] at h
      dsimp only at h
      split at h
      · exact foldlM_inv Rprop_refl (fun _ _ _ => Rprop_trans)
          propOther_step _ st st' hwf h
      · cases h; exact ⟨hwf, Rprop_refl _⟩

theorem propTwoPortBond_step {op1 op2 : SetOp} {k : String}
    {bondIdxs : List Nat} :
    ∀ (st : Bool × List Bond) (i : Nat) (st' : Bool × List Bond),
    WFbonds st.2 → propTwoPortBond op1 op2 k bondIdxs st i = .ok st' →
    WFbonds st'.2 ∧ Rprop st st' := by
  intro st i st' hwf h
  unfold propTwoPortBond at h
  cases hj : st.2[i]? with
  | none => rw [hj] at h; exact absurd h (by simp)
  | some b =>
    rw [hj] at h
    dsimp only at h
    cases hv : b.effortDir with
    | none => rw [hv] at h; dsimp only at h; cases h; exact ⟨hwf, Rprop_refl _⟩
    | some d =>
      rw [hv] at h
      dsimp only at h
      split at h
      · exact foldlM_inv Rprop_refl (fun _ _ _ => Rprop_trans)
          propOther_step _ st st' hwf h
      · split at h
        · exact foldlM_inv Rprop_refl (fun _ _ _ => Rprop_trans)
            propOther_step _ st st' hwf h
        · cases h; exact ⟨hwf, Rprop_refl _⟩

theorem propJunctionElem_step {v : DirView} {op : SetOp} :
    ∀ (e : Element) (st st' : Bool × List Bond), WFbonds st.2 →
    e.getBonds.foldlM (propJunctionBond v op e.identifier e.getBonds) st = .ok st' →
    WFbonds st'.2 ∧ Rprop st st' := by
  intro e st st' hwf h
  exact foldlM_inv Rprop_refl (fun _ _ _ => Rprop_trans)
    propJunctionBond_step _ st st' hwf h

theorem propTwoPortElem_step {op1 op2 : SetOp} :
    ∀ (e : Element) (st st' : Bool × List Bond), WFbonds st.2 →
    e.getBonds.foldlM (propTwoPortBond op1 op2 e.identifier e.getBonds) st = .ok st' →
    WFbonds st'.2 ∧ Rprop st st' := by
  intro e st st' hwf h
  exact foldlM_inv Rprop_refl (fun _ _ _ => Rprop_trans)
    propTwoPortBond_step _ st st' hwf h

theorem propSectionCEJ_step {els : List Element} :
    ∀ (st st' : Bool × List Bond), WFbonds st.2 →
    propSectionCEJ els st = .ok st' → WFbonds st'.2 ∧ Rprop st st' := by
  intro st st' hwf h
  exact foldlM_inv Rprop_refl (fun _ _ _ => Rprop_trans)
    (fun s e s2 hi hh => propJunctionElem_step e s s2 hi hh) _ st st' hwf h

theorem propSectionCFJ_step {els : List Element} :
    ∀ (st st' : Bool × List Bond), WFbonds st.2 →
    propSectionCFJ els st = .ok st' → WFbonds st'.2 ∧ Rprop st st' := by
  intro st st' hwf h
  exact foldlM_inv Rprop_refl (fun _ _ _ => Rprop_trans)
    (fun s e s2 hi hh => propJunctionElem_step e s s2 hi hh) _ st st' hwf h

theorem propSectionTF_step {els : List Element} :
    ∀ (st st' : Bool × List Bond), WFbonds st.2 →
    propSectionTF els st = .ok st' → WFbonds st'.2 ∧ Rprop st st' := by
  intro st st' hwf h
  exact foldlM_inv Rprop_refl (fun _ _ _ => Rprop_trans)
    (fun s e s2 hi hh => propTwoPortElem_step e s s2 hi hh) _ st st' hwf h

theorem propSectionGY_step {els : List Element} :
    ∀ (st st' : Bool × List Bond), WFbonds st.2 →
    propSectionGY els st = .ok st' → WFbonds st'.2 ∧ Rprop st st' := by
  intro st st' hwf h
  exact foldlM_inv Rprop_refl (fun _ _ _ => Rprop_trans)
    (fun s e s2 hi hh => propTwoPortElem_step e s s2 hi hh) _ st st' hwf h

/-- One whole propagation pass: invariant preserved, and either nothing
changed (`ch = false`, store untouched) or `ch = true` with a strictly
smaller measure. -/
theorem propagateCausalities_step {els : List Element} {bs : List Bond}
    {ch : Bool} {bs' : List Bond} (hwf : WFbonds bs)
    (h : propagateCausalities els bs = .ok (ch, bs')) :
    WFbonds bs' ∧ Rprop (false, bs) (ch, bs') := by
  unfold propagateCausalities at h
  cases h1 : propSectionCEJ els (false, bs) with
  | error e => rw [h1] at h; exact absurd h (by simp [Bind.bind, Except.bind])
  | ok st1 =>
    rw [h1] at h
    simp only [Bind.bind, Except.bind] at h
    obtain ⟨hw1, hr1⟩ := propSectionCEJ_step _ _ hwf h1
    cases h2 : propSectionCFJ els st1 with
    | error e => rw [h2] at h; exact absurd h (by simp [Bind.bind, Except.bind])
    | ok st2 =>
      rw [h2] at h
      simp only [Bind.bind, Except.bind] at h
      obtain ⟨hw2, hr2⟩ := propSectionCFJ_step _ _ hw1 h2
      cases h3 : propSectionTF els st2 with
      | error e => rw [h3] at h; exact absurd h (by simp [Bind.bind, Except.bind])
      | ok st3 =>
        rw [h3] at h
        simp only [Bind.bind, Except.bind] at h
        obtain ⟨hw3, hr3⟩ := propSectionTF_step _ _ hw2 h3
        cases h4 : propSectionGY els st3 with
        | error e => rw [h4] at h; exact absurd h (by simp [Bind.bind, Except.bind])
        | ok st4 =>
          rw [h4] at h
          simp only [Bind.bind, Except.bind] at h
          obtain ⟨hw4, hr4⟩ := propSectionGY_step _ _ hw3 h4
          cases h
          exact ⟨hw4, Rprop_trans (Rprop_trans (Rprop_trans hr1 hr2) hr3) hr4⟩

/-- A pass reporting no change leaves the store untouched. -/
theorem propagateCausalities_false {els : List Element} {bs bs' : List Bond}
    (hwf : WFbonds bs) (h : propagateCausalities els bs = .ok (false, bs')) :
    bs' = bs := by
  obtain ⟨-, hr⟩ := propagateCausalities_step hwf h
  rcases hr.2 with ⟨-, h2⟩ | ⟨h1, -⟩
  · exact h2
  · exact absurd h1 (by simp)

/-- A pass reporting a change strictly decreases the measure. -/
theorem propagateCausalities_true {els : List Element} {bs bs' : List Bond}
    (hwf : WFbonds bs) (h : propagateCausalities els bs = .ok (true, bs')) :
    unsetMeasure bs' < unsetMeasure bs := by
  obtain ⟨-, hr⟩ := propagateCausalities_step hwf h
  rcases hr.2 with ⟨h1, -⟩ | ⟨-, h2⟩
  · exact absurd h1 (by simp)
  · exact h2

/-- The state a fixed-point loop returns is well-formed, an evolution of
its input, and genuinely a fixed point: one more pass reports no change. -/
theorem propagateFixpointFuel_ok {els : List Element} :
    ∀ (fuel : Nat) (bs bs' : List Bond), WFbonds bs →
    propagateFixpointFuel els fuel bs = .ok bs' →
    WFbonds bs' ∧ bondsLe bs bs' ∧
    propagateCausalities els bs' = .ok (false, bs') := by
  intro fuel
  induction fuel with
  | zero => intro bs bs' hwf h; exact absurd h (by simp [propagateFixpointFuel])
  | succ fuel ih =>
    intro bs bs' hwf h
    unfold propagateFixpointFuel at h
    cases hp : propagateCausalities els bs with
    | error e => rw [hp] at h; exact absurd h (by simp)
    | ok st =>
      rw [hp] at h
      obtain ⟨ch, bs1⟩ := st
      cases ch with
      | false =>
        dsimp only at h
        cases h
        have hbs : bs' = bs := propagateCausalities_false hwf hp
        subst hbs
        exact ⟨hwf, bondsLe_refl bs', hp⟩
      | true =>
        dsimp only at h
        have hlt := propagateCausalities_step hwf hp
        obtain ⟨hw2, hl2, hs2⟩ := ih bs1 bs' hlt.1 h
        exact ⟨hw2, bondsLe_trans hlt.2.1 hl2, hs2⟩

/-- Fuel-irrelevance: with any two bounds exceeding the measure, the loop
computes the same result — the bound `unsetMeasure bonds + 1` used by
`propagateFixpoint` therefore never truncates the Python `while` loop. -/
theorem propagateFixpointFuel_irrel {els : List Element} :
    ∀ (fuel fuel' : Nat) (bs : List Bond), WFbonds bs →
    unsetMeasure bs < fuel → unsetMeasure bs < fuel' →
    propagateFixpointFuel els fuel bs = propagateFixpointFuel els fuel' bs := by
  intro fuel
  induction fuel with
  | zero => intro fuel' bs hwf h1 h2; omega
  | succ fuel ih =>
    intro fuel' bs hwf h1 h2
    cases fuel' with
    | zero => omega
    | succ fuel' =>
      unfold propagateFixpointFuel
      cases hp : propagateCausalities els bs with
      | error e => rfl
      | ok st =>
        obtain ⟨ch, bs1⟩ := st
        cases ch with
        | false => rfl
        | true =>
          dsimp only
          have hlt := propagateCausalities_true hwf hp
          have hw1 := (propagateCausalities_step hwf hp).1
          exact ih fuel' bs1 hw1 (by omega) (by omega)

/-- `bs` is a propagation fixed point. -/
def Stable (els : List Element) (bs : List Bond) : Prop :=
  propagateCausalities els bs = .ok (false, bs)

theorem propagateFixpoint_ok {els : List Element} {bs bs' : List Bond}
    (hwf : WFbonds bs) (h : propagateFixpoint els bs = .ok bs') :
    WFbonds bs' ∧ bondsLe bs bs' ∧ Stable els bs' :=
  propagateFixpointFuel_ok _ bs bs' hwf h

/-! ## Invariant preservation through the four phases -/

/-- The shared contract of the four bond set operations: on a well-formed
bond a success is an evolution, is well-formed, and leaves both direction
fields set. -/
def GoodOp (op : Bond → String → Except Err Bond) : Prop :=
  ∀ b k b', BondWF b → op b k = .ok b' →
    bondLe b b' ∧ BondWF b' ∧ b'.effortDir.isSome ∧ b'.flowDir.isSome

theorem goodOp_effTowards : GoodOp Bond.setEffortCausalityDirectionTowards := by
  intro b k b' hwf h
  obtain ⟨-, -, -, h4, h5⟩ := setEffortTowards_result h
  exact ⟨setEffortTowards_le hwf h, setEffortTowards_wf h, by simp [h4], by simp [h5]⟩

theorem goodOp_effFrom : GoodOp Bond.setEffortCausalityDirectionFrom := by
  intro b k b' hwf h
  obtain ⟨-, -, -, h4, h5⟩ := setEffortFrom_result h
  exact ⟨setEffortFrom_le hwf h, setEffortFrom_wf h, by simp [h4], by simp [h5]⟩

theorem goodOp_floTowards : GoodOp Bond.setFlowCausalityDirectionTowards :=
  fun b k b' hwf h => goodOp_effFrom b k b' hwf h

theorem goodOp_floFrom : GoodOp Bond.setFlowCausalityDirectionFrom :=
  fun b k b' hwf h => goodOp_effTowards b k b' hwf h

theorem phase1Apply_step {op : Bond → String → Except Err Bond}
    (hop : GoodOp op) {k : String} :
    ∀ (bs : List Bond) (i : Nat) (bs' : List Bond), WFbonds bs →
    phase1Apply op k bs i = .ok bs' → WFbonds bs' ∧ bondsLe bs bs' := by
  intro bs i bs' hwf h
  unfold phase1Apply at h
  cases hj : bs[i]? with
  | none => rw [hj] at h; exact absurd h (by simp)
  | some b =>
    rw [hj] at h
    dsimp only at h
    cases hb : op b k with
    | error e => rw [hb] at h; exact absurd h (by simp [Bind.bind, Except.bind])
    | ok b' =>
      rw [hb] at h
      simp only [Bind.bind, Except.bind] at h
      cases h
      obtain ⟨hle, hwf', -, -⟩ := hop b k b' (hwf b (List.getElem?_mem hj)) hb
      exact ⟨wfBonds_set hwf hwf', bondsLe_set hj hle⟩

theorem phase1Section_inv {pred : ElementKind → Bool}
    {op : Bond → String → Except Err Bond} (hop : GoodOp op)
    {els : List Element} :
    ∀ (bs bs' : List Bond), WFbonds bs →
    phase1Section pred op els bs = .ok bs' → WFbonds bs' ∧ bondsLe bs bs' := by
  intro bs bs' hwf h
  exact foldlM_inv bondsLe_refl (fun _ _ _ => bondsLe_trans)
    (fun s e s2 hi hh =>
      foldlM_inv bondsLe_refl (fun _ _ _ => bondsLe_trans)
        (phase1Apply_step hop) _ s s2 hi hh) _ bs bs' hwf h

theorem phase1_inv {els : List Element} {bs bs' : List Bond}
    (hwf : WFbonds bs) (h : phase1 els bs = .ok bs') :
    WFbonds bs' ∧ bondsLe bs bs' := by
  unfold phase1 at h
  cases h1 : phase1Section ElementKind.isEffortSource
      Bond.setEffortCausalityDirectionFrom els bs with
  | error e => rw [h1] at h; exact absurd h (by simp [Bind.bind, Except.bind])
  | ok t1 =>
    rw [h1] at h; simp only [Bind.bind, Except.bind] at h
    obtain ⟨w1, l1⟩ := phase1Section_inv goodOp_effFrom _ _ hwf h1
    cases h2 : phase1Section ElementKind.isFlowSource
        Bond.setFlowCausalityDirectionFrom els t1 with
    | error e => rw [h2] at h; exact absurd h (by simp [Bind.bind, Except.bind])
    | ok t2 =>
      rw [h2] at h; simp only [Bind.bind, Except.bind] at h
      obtain ⟨w2, l2⟩ := phase1Section_inv goodOp_floFrom _ _ w1 h2
      cases h3 : phase1Section ElementKind.isEffortSensor
          Bond.setFlowCausalityDirectionFrom els t2 with
      | error e => rw [h3] at h; exact absurd h (by simp [Bind.bind, Except.bind])
      | ok t3 =>
        rw [h3] at h; simp only [Bind.bind, Except.bind] at h
        obtain ⟨w3, l3⟩ := phase1Section_inv goodOp_floFrom _ _ w2 h3
        cases h4 : phase1Section ElementKind.isFlowSensor
            Bond.setEffortCausalityDirectionFrom els t3 with
        | error e => rw [h4] at h; exact absurd h (by simp [Bind.bind, Except.bind])
        | ok t4 =>
          rw [h4] at h; simp only [Bind.bind, Except.bind] at h
          obtain ⟨w4, l4⟩ := phase1Section_inv goodOp_effFrom _ _ w3 h4
          cases h5 : phase1Section ElementKind.isEffortController
              Bond.setEffortCausalityDirectionFrom els t4 with
          | error e => rw [h5] at h; exact absurd h (by simp [Bind.bind, Except.bind])
          | ok t5 =>
            rw [h5] at h; simp only [Bind.bind, Except.bind] at h
            obtain ⟨w5, l5⟩ := phase1Section_inv goodOp_effFrom _ _ w4 h5
            obtain ⟨w6, l6⟩ := phase1Section_inv goodOp_floFrom _ _ w5 h
            exact ⟨w6, bondsLe_trans l1 (bondsLe_trans l2 (bondsLe_trans l3
              (bondsLe_trans l4 (bondsLe_trans l5 l6))))⟩

theorem phase2ElemStep_inv {e : Element} :
    ∀ (bs bs' : List Bond), WFbonds bs →
    phase2ElemStep e bs = .ok bs' → WFbonds bs' ∧ bondsLe bs bs' := by
  intro bs bs' hwf h
  refine foldlM_inv bondsLe_refl (fun _ _ _ => bondsLe_trans)
    (fun s i s2 hi hh => ?_) _ bs bs' hwf h
  cases hj : s[i]? with
  | none => rw [hj] at hh; exact absurd hh (by simp)
  | some b =>
    rw [hj] at hh
    dsimp only at hh
    split at hh
    · split at hh
      · cases hb : b.setEffortCausalityDirectionFrom e.identifier with
        | error er => rw [hb] at hh; exact absurd hh (by simp [Bind.bind, Except.bind])
        | ok b' =>
          rw [hb] at hh
          simp only [Bind.bind, Except.bind] at hh
          cases hh
          obtain ⟨hle, hwf', -, -⟩ :=
            goodOp_effFrom b e.identifier b' (hi b (List.getElem?_mem hj)) hb
          exact ⟨wfBonds_set hi hwf', bondsLe_set hj hle⟩
      · split at hh
        · cases hb : b.setFlowCausalityDirectionFrom e.identifier with
          | error er => rw [hb] at hh; exact absurd hh (by simp [Bind.bind, Except.bind])
          | ok b' =>
            rw [hb] at hh
            simp only [Bind.bind, Except.bind] at hh
            cases hh
            obtain ⟨hle, hwf', -, -⟩ :=
              goodOp_floFrom b e.identifier b' (hi b (List.getElem?_mem hj)) hb
            exact ⟨wfBonds_set hi hwf', bondsLe_set hj hle⟩
        · exact absurd hh (by simp)
    · cases hh; exact ⟨hi, bondsLe_refl s⟩

theorem phase2_inv {els : List Element} {bs bs' : List Bond}
    (hwf : WFbonds bs) (h : phase2 els bs = .ok bs') :
    WFbonds bs' ∧ bondsLe bs bs' :=
  foldlM_inv bondsLe_refl (fun _ _ _ => bondsLe_trans)
    (fun s e s2 hi hh => phase2ElemStep_inv s s2 hi hh) _ bs bs' hwf h

/-- Phase 3 sections preserve well-formedness, stability, and evolve the
store: a skipped bond leaves the state alone, an assignment ends in a
propagation fixed point. -/
theorem phase3Section_inv {pred : ElementKind → Bool}
    {op : Bond → String → Except Err Bond} (hop : GoodOp op)
    {els : List Element} :
    ∀ (bs bs' : List Bond), WFbonds bs ∧ Stable els bs →
    phase3Section pred op els bs = .ok bs' →
    (WFbonds bs' ∧ Stable els bs') ∧ bondsLe bs bs' := by
  intro bs bs' hws h
  refine foldlM_inv (I := fun bs => WFbonds bs ∧ Stable els bs)
    bondsLe_refl (fun _ _ _ => bondsLe_trans)
    (fun s e s2 hi hh =>
      foldlM_inv (I := fun bs => WFbonds bs ∧ Stable els bs)
        bondsLe_refl (fun _ _ _ => bondsLe_trans)
        (fun t i t2 hti hth => ?_) _ s s2 hi hh) _ bs bs' hws h
  cases hj : t[i]? with
  | none => rw [hj] at hth; exact absurd hth (by simp)
  | some b =>
    rw [hj] at hth
    dsimp only at hth
    split at hth
    · cases hth; exact ⟨hti, bondsLe_refl t⟩
    · cases hb : op b e.identifier with
      | error er => rw [hb] at hth; exact absurd hth (by simp [Bind.bind, Except.bind])
      | ok b' =>
        rw [hb] at hth
        simp only [Bind.bind, Except.bind] at hth
        obtain ⟨hle, hwf', -, -⟩ :=
          hop b e.identifier b' (hti.1 b (List.getElem?_mem hj)) hb
        have hwset : WFbonds (t.set i b') := wfBonds_set hti.1 hwf'
        obtain ⟨hw2, hl2, hs2⟩ := propagateFixpoint_ok hwset hth
        exact ⟨⟨hw2, hs2⟩, bondsLe_trans (bondsLe_set hj hle) hl2⟩

theorem phase4Step_inv {els : List Element} :
    ∀ (s : List Bond × List Nat) (i : Nat) (s2 : List Bond × List Nat),
    WFbonds s.1 ∧ Stable els s.1 → phase4Step els s i = .ok s2 →
    (WFbonds s2.1 ∧ Stable els s2.1) ∧ bondsLe s.1 s2.1 := by
  intro s i s2 hi hh
  unfold phase4Step at hh
  cases hj : s.1[i]? with
  | none => rw [hj] at hh; exact absurd hh (by simp)
  | some b =>
    rw [hj] at hh
    dsimp only at hh
    split at hh
    · cases hh; exact ⟨hi, bondsLe_refl s.1⟩
    · cases hb : b.setEffortCausalityDirectionTowards b.endp with
      | error er => rw [hb] at hh; exact absurd hh (by simp [Bind.bind, Except.bind])
      | ok b' =>
        rw [hb] at hh
        simp only [Bind.bind, Except.bind] at hh
        cases hfix : propagateFixpoint els (s.1.set i b') with
        | error er => rw [hfix] at hh; exact absurd hh (by simp [Bind.bind, Except.bind])
        | ok bs2 =>
          rw [hfix] at hh
          simp only [Bind.bind, Except.bind] at hh
          cases hh
          obtain ⟨hle, hwf', -, -⟩ :=
            goodOp_effTowards b b.endp b' (hi.1 b (List.getElem?_mem hj)) hb
          obtain ⟨hw2, hl2, hs2⟩ :=
            propagateFixpoint_ok (wfBonds_set hi.1 hwf') hfix
          exact ⟨⟨hw2, hs2⟩, bondsLe_trans (bondsLe_set hj hle) hl2⟩

theorem phase4_inv {els : List Element} :
    ∀ (bs : List Bond) (out : List Bond × List Nat),
    WFbonds bs ∧ Stable els bs → phase4 els bs = .ok out →
    (WFbonds out.1 ∧ Stable els out.1) ∧ bondsLe bs out.1 := by
  intro bs out hws h
  exact foldlM_inv (σ := List Bond × List Nat)
    (I := fun s => WFbonds s.1 ∧ Stable els s.1)
    (R := fun s s' => bondsLe s.1 s'.1)
    (fun s => bondsLe_refl s.1) (fun _ _ _ => bondsLe_trans)
    phase4Step_inv _ (bs, []) out hws h

/-- After a successful `_assign_causalities` run the store is well-formed,
an evolution of the input, and a propagation fixed point; moreover the
final result is produced by phase 4 from a well-formed stable state. -/
theorem assignCausalities_phase4 {els : List Element} {bs bsF : List Bond}
    {w : List Nat} (hwf : WFbonds bs)
    (h : assignCausalities els bs = .ok (bsF, w)) :
    ∃ b3i, WFbonds b3i ∧ Stable els b3i ∧ bondsLe bs b3i ∧
      phase4 els b3i = .ok (bsF, w) := by
  unfold assignCausalities at h
  cases h1 : phase1 els bs with
  | error e => rw [h1] at h; exact absurd h (by simp [Bind.bind, Except.bind])
  | ok b1 =>
    rw [h1] at h; simp only [Bind.bind, Except.bind] at h
    obtain ⟨w1, l1⟩ := phase1_inv hwf h1
    cases h2 : propagateFixpoint els b1 with
    | error e => rw [h2] at h; exact absurd h (by simp [Bind.bind, Except.bind])
    | ok b1f =>
      rw [h2] at h; simp only [Bind.bind, Except.bind] at h
      obtain ⟨w2, l2, s2⟩ := propagateFixpoint_ok w1 h2
      cases h3 : phase2 els b1f with
      | error e => rw [h3] at h; exact absurd h (by simp [Bind.bind, Except.bind])
      | ok b2 =>
        rw [h3] at h; simp only [Bind.bind, Except.bind] at h
        obtain ⟨w3, l3⟩ := phase2_inv w2 h3
        cases h4 : propagateFixpoint els b2 with
        | error e => rw [h4] at h; exact absurd h (by simp [Bind.bind, Except.bind])
        | ok b2f =>
          rw [h4] at h; simp only [Bind.bind, Except.bind] at h
          obtain ⟨w4, l4, s4⟩ := propagateFixpoint_ok w3 h4
          cases h5 : phase3Section ElementKind.isCapacitance
              Bond.setFlowCausalityDirectionTowards els b2f with
          | error e => rw [h5] at h; exact absurd h (by simp [Bind.bind, Except.bind])
          | ok b3 =>
            rw [h5] at h; simp only [Bind.bind, Except.bind] at h
            obtain ⟨⟨w5, s5⟩, l5⟩ := phase3Section_inv goodOp_floTowards _ _ ⟨w4, s4⟩ h5
            cases h6 : phase3Section ElementKind.isInertance
                Bond.setEffortCausalityDirectionTowards els b3 with
            | error e => rw [h6] at h; exact absurd h (by simp [Bind.bind, Except.bind])
            | ok b3i =>
              rw [h6] at h; simp only [Bind.bind, Except.bind] at h
              obtain ⟨⟨w6, s6⟩, l6⟩ := phase3Section_inv goodOp_effTowards _ _ ⟨w5, s5⟩ h6
              exact ⟨b3i, w6, s6, bondsLe_trans l1 (bondsLe_trans l2
                (bondsLe_trans l3 (bondsLe_trans l4 (bondsLe_trans l5 l6)))), h⟩

/-- After a successful `_assign_causalities` run the store is well-formed,
an evolution of the input, and a propagation fixed point. -/
theorem assignCausalities_ok {els : List Element} {bs bsF : List Bond}
    {w : List Nat} (hwf : WFbonds bs)
    (h : assignCausalities els bs = .ok (bsF, w)) :
    WFbonds bsF ∧ bondsLe bs bsF ∧ Stable els bsF := by
  obtain ⟨b3i, w6, s6, l6, h4⟩ := assignCausalities_phase4 hwf h
  obtain ⟨⟨w7, s7⟩, l7⟩ := phase4_inv b3i (bsF, w) ⟨w6, s6⟩ h4
  exact ⟨w7, bondsLe_trans l6 l7, s7⟩

/-! ## Phase 4 marks every bond it visits -/

theorem bondLe_isCausalitySet {b b' : Bond} (h : bondLe b b')
    (hs : b.isCausalitySet = true) : b'.isCausalitySet = true := by
  unfold Bond.isCausalitySet at hs ⊢
  obtain ⟨-, -, -, he, hf⟩ := h
  obtain ⟨d1, hd1⟩ := Option.isSome_iff_exists.mp ((Bool.and_eq_true _ _).mp hs).1
  obtain ⟨d2, hd2⟩ := Option.isSome_iff_exists.mp ((Bool.and_eq_true _ _).mp hs).2
  simp [he d1 hd1, hf d2 hd2]

theorem phase4Step_marks {els : List Element} {s : List Bond × List Nat}
    {i : Nat} {t : List Bond × List Nat} (hws : WFbonds s.1)
    (hh : phase4Step els s i = .ok t) :
    ∀ b, t.1[i]? = some b → b.isCausalitySet = true := by
  unfold phase4Step at hh
  cases hj : s.1[i]? with
  | none => rw [hj] at hh; exact absurd hh (by simp)
  | some b0 =>
    rw [hj] at hh
    dsimp only at hh
    split at hh
    · cases hh
      intro b hb
      rw [hj] at hb
      cases hb
      assumption
    · cases hb : b0.setEffortCausalityDirectionTowards b0.endp with
      | error er => rw [hb] at hh; exact absurd hh (by simp [Bind.bind, Except.bind])
      | ok b' =>
        rw [hb] at hh
        simp only [Bind.bind, Except.bind] at hh
        cases hfix : propagateFixpoint els (s.1.set i b') with
        | error er => rw [hfix] at hh; exact absurd hh (by simp [Bind.bind, Except.bind])
        | ok bs2 =>
          rw [hfix] at hh
          simp only [Bind.bind, Except.bind] at hh
          cases hh
          intro b hbq
          have hwf' : BondWF b' := setEffortTowards_wf hb
          obtain ⟨-, hl2, -⟩ := propagateFixpoint_ok (wfBonds_set hws hwf') hfix
          have hidx : i < s.1.length := (List.getElem?_eq_some.mp hj).1
          have hset : (s.1.set i b')[i]? = some b' := List.getElem?_set_eq hidx
          obtain ⟨b2, hb2, hle2⟩ := hl2.2 i b' hset
          dsimp only at hbq
          have hbb : b = b2 := (Option.some.injEq _ _).mp (hbq.symm.trans hb2)
          subst hbb
          refine bondLe_isCausalitySet hle2 ?_
          unfold Bond.isCausalitySet
          obtain ⟨-, -, -, he', hf'⟩ := setEffortTowards_result hb
          simp [he', hf']

/-- After the phase-4 loop, every visited bond position holds a marked
bond. -/
theorem phase4_go_marks {els : List Element} :
    ∀ (l : List Nat) (s : List Bond × List Nat) (out : List Bond × List Nat),
    WFbonds s.1 ∧ Stable els s.1 → l.foldlM (phase4Step els) s = .ok out →
    ∀ i ∈ l, ∀ b, out.1[i]? = some b → b.isCausalitySet = true := by
  intro l
  induction l with
  | nil => intro s out hi h i hil; exact absurd hil (List.not_mem_nil i)
  | cons j l ih =>
    intro s out hi h i hil
    simp only [List.foldlM_cons] at h
    cases ht : phase4Step els s j with
    | error e => rw [ht] at h; exact absurd h (by simp [Bind.bind, Except.bind])
    | ok t =>
      rw [ht] at h
      simp only [Bind.bind, Except.bind] at h
      obtain ⟨hit, hlt⟩ := phase4Step_inv s j t hi ht
      rcases List.mem_cons.mp hil with rfl | hml
      · intro b hb
        have hrest := foldlM_inv (σ := List Bond × List Nat)
          (I := fun s => WFbonds s.1 ∧ Stable els s.1)
          (R := fun s s' => bondsLe s.1 s'.1)
          (fun s => bondsLe_refl s.1) (fun _ _ _ => bondsLe_trans)
          phase4Step_inv l t out hit h
        have hmark := phase4Step_marks hi.1 ht
        by_cases htb : ∃ bt, t.1[i]? = some bt
        · obtain ⟨bt, hbt⟩ := htb
          obtain ⟨b2, hb2, hle⟩ := hrest.2.2 i bt hbt
          rw [hb] at hb2
          cases hb2
          exact bondLe_isCausalitySet hle (hmark bt hbt)
        · exfalso
          have hlen : t.1.length = out.1.length := hrest.2.1
          have hio : i < out.1.length := (List.getElem?_eq_some.mp hb).1
          exact htb ⟨t.1[i], List.getElem?_eq_some.mpr ⟨by omega, rfl⟩⟩
      · exact ih t out hit h i hml

/-! ## Properties of the graph builder -/

theorem addOutBond_ok {e : Element} {b : Bond} {e' : Element}
    (h : e.addOutBond b = .ok e') :
    e.identifier = b.start ∧ b.index ∉ e.inBonds ∧
    e' = { e with outBonds := e.outBonds ++ [b.index] } := by
  unfold Element.addOutBond at h
  split at h
  · exact absurd h (by simp)
  · split at h
    · exact absurd h (by simp)
    · cases h
      refine ⟨by tauto, by assumption, rfl⟩

theorem addInBond_ok {e : Element} {b : Bond} {e' : Element}
    (h : e.addInBond b = .ok e') :
    e.identifier = b.endp ∧ b.index ∉ e.inBonds ∧
    e' = { e with inBonds := e.inBonds ++ [b.index] } := by
  unfold Element.addInBond at h
  split at h
  · exact absurd h (by simp)
  · split at h
    · exact absurd h (by simp)
    · cases h
      refine ⟨by tauto, by assumption, rfl⟩

/-- A successful dict update touches exactly the first element whose
identifier matches. -/
theorem updateElement_ok {k : String} {f : Element → Except Err Element} :
    ∀ (els els' : List Element), updateElement k f els = .ok els' →
    ∃ pre e e' post, els = pre ++ e :: post ∧ els' = pre ++ e' :: post ∧
      e.identifier = k ∧ f e = .ok e' := by
  intro els
  induction els with
  | nil => intro els' h; exact absurd h (by simp [updateElement])
  | cons x rest ih =>
    intro els' h
    unfold updateElement at h
    split at h
    · cases hf : f x with
      | error er => rw [hf] at h; exact absurd h (by simp [Except.map])
      | ok x' =>
        rw [hf] at h
        simp only [Except.map] at h
        cases h
        exact ⟨[], x, x', rest, by simp, by simp, by
          rename_i hx; exact beq_iff_eq.mp hx, hf⟩
    · cases hr : updateElement k f rest with
      | error er => rw [hr] at h; exact absurd h (by simp [Except.map])
      | ok rest' =>
        rw [hr] at h
        simp only [Except.map] at h
        cases h
        obtain ⟨pre, e, e', post, h1, h2, h3, h4⟩ := ih rest' hr
        exact ⟨x :: pre, e, e', post, by simp [h1], by simp [h2], h3, h4⟩

theorem getBondIdxs_append (l1 l2 : List Element) :
    getBondIdxs (l1 ++ l2) = getBondIdxs l1 ++ getBondIdxs l2 := by
  unfold getBondIdxs
  exact List.flatMap_append l1 l2 _

/-- Attaching an out-bond does not change any in-bond list. -/
theorem getBondIdxs_addOut {k : String} {b : Bond} {els els' : List Element}
    (h : updateElement k (fun el => el.addOutBond b) els = .ok els') :
    getBondIdxs els' = getBondIdxs els := by
  obtain ⟨pre, e, e', post, h1, h2, h3, h4⟩ := updateElement_ok els els' h
  obtain ⟨-, -, he'⟩ := addOutBond_ok h4
  subst h1 h2 he'
  rw [getBondIdxs_append, getBondIdxs_append]
  simp [getBondIdxs]

/-- Attaching an in-bond appends exactly the new bond's index to the
concatenated in-bond lists, up to permutation. -/
theorem getBondIdxs_addIn {k : String} {b : Bond} {els els' : List Element}
    (h : updateElement k (fun el => el.addInBond b) els = .ok els') :
    (getBondIdxs els').Perm (getBondIdxs els ++ [b.index]) := by
  obtain ⟨pre, e, e', post, h1, h2, h3, h4⟩ := updateElement_ok els els' h
  obtain ⟨-, -, he'⟩ := addInBond_ok h4
  subst h1 h2 he'
  rw [getBondIdxs_append, getBondIdxs_append]
  simp only [getBondIdxs, List.flatMap_cons]
  calc (pre.flatMap Element.inBonds) ++ ((e.inBonds ++ [b.index]) ++ post.flatMap Element.inBonds)
      = (pre.flatMap Element.inBonds) ++ (e.inBonds ++ ([b.index] ++ post.flatMap Element.inBonds)) := by
        simp [List.append_assoc]
    _ |>.Perm ((pre.flatMap Element.inBonds) ++ (e.inBonds ++ (post.flatMap Element.inBonds ++ [b.index]))) :=
        List.Perm.append_left _ (List.Perm.append_left _ List.perm_append_comm)
    _ = (pre.flatMap Element.inBonds ++ (e.inBonds ++ post.flatMap Element.inBonds)) ++ [b.index] := by
        simp [List.append_assoc]

/-- The attachment loop: the final bond store is the input store extended
by one fresh unmarked bond per pair, indexed consecutively. -/
theorem addBondsGo_bonds :
    ∀ (pairs : List (String × String)) (els : List Element) (bonds : List Bond)
      (idx : Nat) (els' : List Element) (bonds' : List Bond),
    addBondsGo els bonds idx pairs = .ok (els', bonds') →
    bonds' = bonds ++ (pairs.enumFrom idx).map (fun p => Bond.mkBond p.2.1 p.2.2 p.1) := by
  intro pairs
  induction pairs with
  | nil =>
    intro els bonds idx els' bonds' h
    unfold addBondsGo at h
    cases h
    simp [List.enumFrom]
  | cons p rest ih =>
    obtain ⟨ps, pe⟩ := p
    intro els bonds idx els' bonds' h
    unfold addBondsGo at h
    split at h
    · exact absurd h (by simp)
    · split at h
      · exact absurd h (by simp)
      · simp only at h
        cases h1 : updateElement ps (fun el => el.addOutBond (Bond.mkBond ps pe idx)) els with
        | error er => rw [h1] at h; exact absurd h (by simp [Bind.bind, Except.bind])
        | ok els1 =>
          rw [h1] at h
          simp only [Bind.bind, Except.bind] at h
          cases h2 : updateElement pe (fun el => el.addInBond (Bond.mkBond ps pe idx)) els1 with
          | error er => rw [h2] at h; exact absurd h (by simp)
          | ok els2 =>
            rw [h2] at h
            simp only at h
            have := ih els2 (bonds ++ [Bond.mkBond ps pe idx]) (idx + 1) els' bonds' h
            rw [this]
            simp [List.enumFrom, List.append_assoc]

/-- The attachment loop: the concatenated in-bond lists gain exactly the
indices of the new bonds, up to permutation. -/
theorem addBondsGo_idxs :
    ∀ (pairs : List (String × String)) (els : List Element) (bonds : List Bond)
      (idx : Nat) (els' : List Element) (bonds' : List Bond),
    addBondsGo els bonds idx pairs = .ok (els', bonds') →
    (getBondIdxs els').Perm (getBondIdxs els ++ List.range' idx pairs.length) := by
  intro pairs
  induction pairs with
  | nil =>
    intro els bonds idx els' bonds' h
    unfold addBondsGo at h
    cases h
    simp [List.range']
  | cons p rest ih =>
    obtain ⟨ps, pe⟩ := p
    intro els bonds idx els' bonds' h
    unfold addBondsGo at h
    split at h
    · exact absurd h (by simp)
    · split at h
      · exact absurd h (by simp)
      · simp only at h
        cases h1 : updateElement ps (fun el => el.addOutBond (Bond.mkBond ps pe idx)) els with
        | error er => rw [h1] at h; exact absurd h (by simp [Bind.bind, Except.bind])
        | ok els1 =>
          rw [h1] at h
          simp only [Bind.bind, Except.bind] at h
          cases h2 : updateElement pe (fun el => el.addInBond (Bond.mkBond ps pe idx)) els1 with
          | error er => rw [h2] at h; exact absurd h (by simp)
          | ok els2 =>
            rw [h2] at h
            simp only at h
            have hout : getBondIdxs els1 = getBondIdxs els := getBondIdxs_addOut h1
            have hin : (getBondIdxs els2).Perm (getBondIdxs els1 ++ [idx]) :=
              getBondIdxs_addIn h2
            have hrec := ih els2 (bonds ++ [Bond.mkBond ps pe idx]) (idx + 1) els' bonds' h
            have hcons : List.range' idx (rest.length + 1) = idx :: List.range' (idx + 1) rest.length := rfl
            refine hrec.trans ?_
            have h5 : (getBondIdxs els2 ++ List.range' (idx + 1) rest.length).Perm
                ((getBondIdxs els ++ [idx]) ++ List.range' (idx + 1) rest.length) := by
              refine List.Perm.append_right _ (hin.trans ?_)
              rw [hout]
            refine h5.trans ?_
            simp only [List.length_cons, hcons]
            have : (getBondIdxs els ++ [idx]) ++ List.range' (idx + 1) rest.length
                = getBondIdxs els ++ (idx :: List.range' (idx + 1) rest.length) := by
              simp [List.append_assoc]
            rw [this]

/-- Element-wise properties survive the registration loop. -/
theorem addElements_preserve {P : Element → Prop} :
    ∀ (elems acc els' : List Element), (∀ e ∈ acc, P e) → (∀ e ∈ elems, P e) →
    elems.foldlM addElement acc = .ok els' → ∀ e ∈ els', P e := by
  intro elems
  induction elems with
  | nil =>
    intro acc els' hacc helems h
    simp only [List.foldlM_nil] at h
    cases h
    exact hacc
  | cons x rest ih =>
    intro acc els' hacc helems h
    simp only [List.foldlM_cons] at h
    cases hx : addElement acc x with
    | error e => rw [hx] at h; exact absurd h (by simp [Bind.bind, Except.bind])
    | ok acc1 =>
      rw [hx] at h
      simp only [Bind.bind, Except.bind] at h
      have hacc1 : ∀ e ∈ acc1, P e := by
        unfold addElement at hx
        split at hx
        · exact absurd hx (by simp)
        · cases hx
          intro e he
          rcases List.mem_append.mp he with he | he
          · exact hacc e he
          · rw [List.mem_singleton.mp he]
            exact helems x (List.mem_cons_self x rest)
      exact ih acc1 els' hacc1 (fun e he => helems e (List.mem_cons_of_mem x he)) h

theorem getBondIdxs_nil {els : List Element}
    (h : ∀ e ∈ els, e.inBonds = []) : getBondIdxs els = [] := by
  induction els with
  | nil => rfl
  | cons x rest ih =>
    unfold getBondIdxs at ih ⊢
    simp only [List.flatMap_cons]
    rw [h x (List.mem_cons_self x rest), ih (fun e he => h e (List.mem_cons_of_mem x he))]
    rfl

theorem addBonds_ok {els : List Element} {pairs : List (String × String)}
    {els' : List Element} {bonds' : List Bond}
    (h : addBonds els pairs = .ok (els', bonds')) :
    pairs.Nodup ∧ addBondsGo els [] 0 pairs = .ok (els', bonds') := by
  unfold addBonds at h
  split at h
  · exact ⟨by assumption, h⟩
  · exact absurd h (by simp)

/-- Distinctness of the `(start, end)` pairs across the bond store. -/
def PairsDistinct (bs : List Bond) : Prop :=
  ∀ (i j : Nat) (bi bj : Bond), bs[i]? = some bi → bs[j]? = some bj →
    (bi.start, bi.endp) = (bj.start, bj.endp) → i = j

theorem pairsDistinct_built {pairs : List (String × String)} (hn : pairs.Nodup) :
    PairsDistinct ((pairs.enumFrom 0).map fun p => Bond.mkBond p.2.1 p.2.2 p.1) := by
  intro i j bi bj hi hj heq
  rw [List.getElem?_map, List.getElem?_enumFrom] at hi hj
  cases hpi : pairs[i]? with
  | none => rw [hpi] at hi; exact absurd hi (by simp)
  | some pi =>
    cases hpj : pairs[j]? with
    | none => rw [hpj] at hj; exact absurd hj (by simp)
    | some pj =>
      rw [hpi] at hi
      rw [hpj] at hj
      simp only [Option.map_some'] at hi hj
      cases hi
      cases hj
      simp only [Bond.mkBond] at heq
      have hpp : pi = pj := by
        obtain ⟨h1, h2⟩ := Prod.mk.injEq .. |>.mp heq
        exact Prod.ext h1 h2
      obtain ⟨hi1, hi2⟩ := List.getElem?_eq_some.mp hpi
      obtain ⟨hj1, hj2⟩ := List.getElem?_eq_some.mp hpj
      exact List.Nodup.getElem_inj_iff hn |>.mp (by rw [hi2, hj2, hpp])

theorem pairsDistinct_mono {bs bs' : List Bond} (hle : bondsLe bs bs')
    (hp : PairsDistinct bs) : PairsDistinct bs' := by
  intro i j bi' bj' hi hj heq
  have hlen : bs.length = bs'.length := hle.1
  have hilt : i < bs.length := by
    have hq := (List.getElem?_eq_some.mp hi).1
    omega
  have hjlt : j < bs.length := by
    have hq := (List.getElem?_eq_some.mp hj).1
    omega
  have hbi : bs[i]? = some bs[i] := List.getElem?_eq_some.mpr ⟨hilt, rfl⟩
  have hbj : bs[j]? = some bs[j] := List.getElem?_eq_some.mpr ⟨hjlt, rfl⟩
  obtain ⟨b1, hb1, hle1⟩ := hle.2 i bs[i] hbi
  obtain ⟨b2, hb2, hle2⟩ := hle.2 j bs[j] hbj
  have he1 : b1 = bi' := (Option.some.injEq _ _).mp (hb1.symm.trans hi)
  have he2 : b2 = bj' := (Option.some.injEq _ _).mp (hb2.symm.trans hj)
  subst he1 he2
  refine hp i j bs[i] bs[j] hbi hbj ?_
  rw [hle1.1, hle1.2.1, hle2.1, hle2.2.1] at heq
  exact heq

theorem buildBondgraph_ok {elems : List Element} {pairs : List (String × String)}
    {g : Bondgraph} {w : List Nat}
    (h : buildBondgraph elems pairs = .ok (g, w)) :
    ∃ els els2 bonds, addElements elems = .ok els ∧
      addBonds els pairs = .ok (els2, bonds) ∧
      checkAllBonds els2 = .ok () ∧
      assignCausalities els2 bonds = .ok (g.bonds, w) ∧ g.elements = els2 := by
  unfold buildBondgraph at h
  cases h1 : addElements elems with
  | error e => rw [h1] at h; exact absurd h (by simp [Bind.bind, Except.bind])
  | ok els =>
    rw [h1] at h
    simp only [Bind.bind, Except.bind] at h
    cases h2 : addBonds els pairs with
    | error e => rw [h2] at h; exact absurd h (by simp)
    | ok p =>
      obtain ⟨els2, bonds⟩ := p
      rw [h2] at h
      simp only at h
      cases h3 : checkAllBonds els2 with
      | error e => rw [h3] at h; exact absurd h (by simp [Bind.bind, Except.bind])
      | ok u =>
        cases u
        rw [h3] at h
        simp only [Bind.bind, Except.bind] at h
        cases h4 : assignCausalities els2 bonds with
        | error e => rw [h4] at h; exact absurd h (by simp)
        | ok q =>
          obtain ⟨bonds', warns⟩ := q
          rw [h4] at h
          simp only at h
          cases h
          exact ⟨els, els2, bonds, rfl, h2, h3, h4, rfl⟩

theorem filterMap_getElem_range : ∀ (l : List Bond),
    (List.range l.length).filterMap (fun i => l[i]?) = l := by
  intro l
  induction l with
  | nil => rfl
  | cons a l ih =>
    rw [List.length_cons, List.range_succ_eq_map]
    rw [List.filterMap_cons_some (by simp : (a :: l)[(0 : Nat)]? = some a)]
    rw [List.filterMap_map]
    have hfun : ((fun i => (a :: l)[i]?) ∘ Nat.succ) = (fun i : Nat => l[i]?) := by
      funext i
      simp [List.getElem?_cons_succ]
    rw [hfun, ih]

/-- The facts about a successfully constructed graph that the claims rest
on: the in-bond index lists enumerate the bond store exactly once (up to
order); the final store is well-formed, stable under propagation, and has
pairwise distinct `(start, end)` pairs; and it is the output of phase 4
run from a well-formed stable intermediate state. -/
theorem construct_facts {specs : List (String × ElementKind)}
    {pairs : List (String × String)} {g : Bondgraph} {w : List Nat}
    (h : Bondgraph.construct specs pairs = .ok (g, w)) :
    (getBondIdxs g.elements).Perm (List.range g.bonds.length) ∧
    WFbonds g.bonds ∧ Stable g.elements g.bonds ∧ PairsDistinct g.bonds ∧
    (∃ b3i, WFbonds b3i ∧ Stable g.elements b3i ∧
      (getBondIdxs g.elements).foldlM (phase4Step g.elements) (b3i, []) =
        .ok (g.bonds, w)) := by
  unfold Bondgraph.construct at h
  obtain ⟨els, els2, bonds0, h1, h2, h3, h4, h5⟩ := buildBondgraph_ok h
  obtain ⟨hnodup, hgo⟩ := addBonds_ok h2
  have hempty : ∀ e ∈ els, e.inBonds = [] := by
    have h1q : (specs.map fun p => (⟨p.1, p.2, [], []⟩ : Element)).foldlM addElement []
        = .ok els := h1
    exact addElements_preserve (P := fun e => e.inBonds = [])
      (specs.map fun p => ⟨p.1, p.2, [], []⟩) [] els (by simp)
      (by
        intro e he
        obtain ⟨p, -, hp⟩ := List.mem_map.mp he
        rw [← hp])
      h1q
  have hidxnil : getBondIdxs els = [] := getBondIdxs_nil hempty
  have hbonds0 : bonds0 = (pairs.enumFrom 0).map (fun p => Bond.mkBond p.2.1 p.2.2 p.1) := by
    have := addBondsGo_bonds pairs els [] 0 els2 bonds0 hgo
    simpa using this
  have hlen0 : bonds0.length = pairs.length := by
    rw [hbonds0]
    simp [List.enumFrom_length]
  have hunmarked : WFbonds bonds0 := by
    intro b hb
    rw [hbonds0] at hb
    obtain ⟨p, -, hp⟩ := List.mem_map.mp hb
    rw [← hp]
    exact Or.inl ⟨rfl, rfl⟩
  have hperm0 : (getBondIdxs els2).Perm (List.range' 0 pairs.length) := by
    have := addBondsGo_idxs pairs els [] 0 els2 bonds0 hgo
    rw [hidxnil] at this
    simpa using this
  obtain ⟨hwfF, hleF, hstF⟩ := assignCausalities_ok hunmarked h4
  have hlenF : g.bonds.length = pairs.length := by
    rw [← hleF.1, hlen0]
  constructor
  · rw [h5, hlenF, List.range_eq_range']
    exact hperm0
  refine ⟨hwfF, by rw [h5]; exact hstF, ?_, ?_⟩
  · exact pairsDistinct_mono hleF (hbonds0 ▸ pairsDistinct_built hnodup)
  · obtain ⟨b3i, hw6, hs6, hl6, hp4⟩ := assignCausalities_phase4 hunmarked h4
    refine ⟨b3i, hw6, by rw [h5]; exact hs6, ?_⟩
    rw [h5]
    exact hp4

/-! ## What a propagation fixed point says about junctions -/

theorem Rprop_mono_true {s s' : Bool × List Bond} (h : Rprop s s')
    (ht : s.1 = true) : s'.1 = true := by
  rcases h.2 with ⟨h1, -⟩ | ⟨h1, -⟩
  · exact h1.trans ht
  · exact h1

/-- If a fold of propagation steps starting and ending at `(false, bs)`
succeeds, every single step maps `(false, bs)` to itself. -/
theorem foldlM_false_fixed {α : Type}
    {f : (Bool × List Bond) → α → Except Err (Bool × List Bond)}
    (hf : ∀ s a s', WFbonds s.2 → f s a = .ok s' → WFbonds s'.2 ∧ Rprop s s')
    {l : List α} {bs : List Bond} (hwf : WFbonds bs)
    (h : l.foldlM f (false, bs) = .ok (false, bs)) :
    ∀ a ∈ l, f (false, bs) a = .ok (false, bs) := by
  intro a ha
  obtain ⟨s1, s2, hws1, hr1, hstep, hr2⟩ :=
    foldlM_mem Rprop_refl (fun _ _ _ => Rprop_trans) hf l (false, bs) (false, bs)
      hwf h a ha
  have hnt : ∀ s : Bool × List Bond, s.1 = true → ¬ Rprop s (false, bs) := by
    intro s hs hr
    rcases hr.2 with ⟨h1, -⟩ | ⟨h1, -⟩
    · rw [hs] at h1; exact absurd h1 (by simp)
    · exact absurd h1 (by simp)
  have hs1 : s1 = (false, bs) := by
    rcases hr1.2 with ⟨h1, h2⟩ | ⟨h1, -⟩
    · obtain ⟨c1, d1⟩ := s1
      simp only at h1 h2
      rw [h1, h2]
    · exfalso
      have ht2 : s2.1 = true := Rprop_mono_true (hf s1 a s2 hws1 hstep).2 h1
      exact hnt s2 ht2 hr2
  subst hs1
  have hs2 : s2 = (false, bs) := by
    have hr12 := (hf _ a s2 hws1 hstep).2
    rcases hr12.2 with ⟨h1, h2⟩ | ⟨h1, -⟩
    · obtain ⟨c2, d2⟩ := s2
      simp only at h1 h2
      rw [h1, h2]
    · exact absurd hr2 (hnt s2 h1)
  exact hs2 ▸ hstep

/-- At a propagation fixed point, the 0-junction and 1-junction sections
individually report no change. -/
theorem stable_sections {els : List Element} {bs : List Bond}
    (hwf : WFbonds bs) (hst : Stable els bs) :
    propSectionCEJ els (false, bs) = .ok (false, bs) ∧
    propSectionCFJ els (false, bs) = .ok (false, bs) := by
  unfold Stable propagateCausalities at hst
  cases h1 : propSectionCEJ els (false, bs) with
  | error e => rw [h1] at hst; exact absurd hst (by simp [Bind.bind, Except.bind])
  | ok st1 =>
    rw [h1] at hst
    simp only [Bind.bind, Except.bind] at hst
    obtain ⟨hw1, hr1⟩ := propSectionCEJ_step _ _ hwf h1
    cases h2 : propSectionCFJ els st1 with
    | error e => rw [h2] at hst; exact absurd hst (by simp [Bind.bind, Except.bind])
    | ok st2 =>
      rw [h2] at hst
      simp only [Bind.bind, Except.bind] at hst
      obtain ⟨hw2, hr2⟩ := propSectionCFJ_step _ _ hw1 h2
      cases h3 : propSectionTF els st2 with
      | error e => rw [h3] at hst; exact absurd hst (by simp [Bind.bind, Except.bind])
      | ok st3 =>
        rw [h3] at hst
        simp only [Bind.bind, Except.bind] at hst
        obtain ⟨hw3, hr3⟩ := propSectionTF_step _ _ hw2 h3
        cases h4 : propSectionGY els st3 with
        | error e => rw [h4] at hst; exact absurd hst (by simp [Bind.bind, Except.bind])
        | ok st4 =>
          rw [h4] at hst
          simp only [Bind.bind, Except.bind] at hst
          cases hst
          have hs3 : st3 = (false, bs) := by
            obtain ⟨hw4, hr4⟩ := propSectionGY_step _ _ hw3 h4
            rcases hr4.2 with ⟨ha, hb⟩ | ⟨ha, -⟩
            · obtain ⟨c, d⟩ := st3
              simp only at ha hb
              rw [← ha, ← hb]
            · exact absurd ha (by simp)
          subst hs3
          have hs2 : st2 = (false, bs) := by
            rcases hr3.2 with ⟨ha, hb⟩ | ⟨ha, -⟩
            · obtain ⟨c, d⟩ := st2
              simp only at ha hb
              rw [← ha, ← hb]
            · exact absurd ha (by simp)
          subst hs2
          have hs1 : st1 = (false, bs) := by
            rcases hr2.2 with ⟨ha, hb⟩ | ⟨ha, -⟩
            · obtain ⟨c, d⟩ := st1
              simp only at ha hb
              rw [← ha, ← hb]
            · exact absurd ha (by simp)
          subst hs1
          exact ⟨rfl, h2⟩

theorem propOther_fixed {v : DirView} {op : SetOp} {k : String}
    {bs : List Bond} {j : Nat}
    (h : propOther v op k (false, bs) j = .ok (false, bs)) :
    ∃ ob d, bs[j]? = some ob ∧ v.get ob = some d ∧
      (if op.passFst = true then d.1 == k else d.2 == k) = true := by
  unfold propOther at h
  dsimp only at h
  cases hj : bs[j]? with
  | none => rw [hj] at h; exact absurd h (by simp)
  | some ob =>
    rw [hj] at h
    dsimp only at h
    cases hv : v.get ob with
    | none =>
      exfalso
      rw [hv] at h
      dsimp only at h
      cases hap : op.apply ob k with
      | error e => rw [hap] at h; exact absurd h (by simp [Bind.bind, Except.bind])
      | ok ob' =>
        rw [hap] at h
        simp only [Bind.bind, Except.bind] at h
        simp at h
    | some d =>
      rw [hv] at h
      dsimp only at h
      cases hcond : (if op.passFst = true then d.1 == k else d.2 == k) with
      | true => exact ⟨ob, d, rfl, hv, hcond⟩
      | false =>
        rw [hcond, if_neg (by simp)] at h
        exact absurd h (by simp)

theorem junction_fixed_trigger {v : DirView} {op : SetOp} {k : String}
    {bondIdxs : List Nat} {bs : List Bond} {i : Nat} {b : Bond}
    {d : String × String} (hwf : WFbonds bs)
    (hb : bs[i]? = some b) (hd : v.get b = some d) (h2 : (d.2 == k) = true)
    (h : propJunctionBond v op k bondIdxs (false, bs) i = .ok (false, bs)) :
    ∀ j ∈ bondIdxs.filter (· ≠ i),
      propOther v op k (false, bs) j = .ok (false, bs) := by
  unfold propJunctionBond at h
  dsimp only at h
  rw [hb] at h
  dsimp only at h
  rw [hd] at h
  dsimp only at h
  rw [if_pos h2] at h
  exact foldlM_false_fixed propOther_step hwf h

/-- At a fixed point, a 0-junction that is the effort-input endpoint of
one incident bond forces every other incident bond to carry the junction
as its effort-output endpoint. -/
theorem stable_cej {els : List Element} {bs : List Bond}
    (hwf : WFbonds bs) (hst : Stable els bs) :
    ∀ e ∈ els, e.kind.isCommonEffortJunction = true →
    ∀ i ∈ e.getBonds, ∀ (b : Bond) (d : String × String),
    bs[i]? = some b → b.effortDir = some d → d.2 = e.identifier →
    ∀ j ∈ e.getBonds, j ≠ i →
    ∃ ob dj, bs[j]? = some ob ∧ ob.effortDir = some dj ∧
      dj.1 = e.identifier := by
  intro e he hk i hi b d hb hd hd2 j hj hji
  obtain ⟨hcej, -⟩ := stable_sections hwf hst
  have hmem : e ∈ els.filter (fun e => e.kind.isCommonEffortJunction) :=
    List.mem_filter.mpr ⟨he, hk⟩
  have hcej' : (els.filter (fun e => e.kind.isCommonEffortJunction)).foldlM
      (fun st e => e.getBonds.foldlM
        (propJunctionBond DirView.effort SetOp.effFrom e.identifier e.getBonds) st)
      (false, bs) = .ok (false, bs) := hcej
  have helem := foldlM_false_fixed
    (f := fun st e =>
      e.getBonds.foldlM (propJunctionBond DirView.effort SetOp.effFrom e.identifier e.getBonds) st)
    (fun s a s' hw hh => propJunctionElem_step a s s' hw hh) hwf hcej' e hmem
  have hbond := foldlM_false_fixed
    (f := propJunctionBond DirView.effort SetOp.effFrom e.identifier e.getBonds)
    propJunctionBond_step hwf helem i hi
  have hinner := junction_fixed_trigger hwf hb (show DirView.effort.get b = some d from hd)
    (by simp [hd2]) hbond
  have hjmem : j ∈ e.getBonds.filter (· ≠ i) :=
    List.mem_filter.mpr ⟨hj, by simp [hji]⟩
  obtain ⟨ob, dj, h1, h2, h3⟩ := propOther_fixed (hinner j hjmem)
  refine ⟨ob, dj, h1, h2, ?_⟩
  simpa [SetOp.passFst] using h3

/-- Dual fact for a 1-junction on flow directions. -/
theorem stable_cfj {els : List Element} {bs : List Bond}
    (hwf : WFbonds bs) (hst : Stable els bs) :
    ∀ e ∈ els, e.kind.isCommonFlowJunction = true →
    ∀ i ∈ e.getBonds, ∀ (b : Bond) (d : String × String),
    bs[i]? = some b → b.flowDir = some d → d.2 = e.identifier →
    ∀ j ∈ e.getBonds, j ≠ i →
    ∃ ob dj, bs[j]? = some ob ∧ ob.flowDir = some dj ∧
      dj.1 = e.identifier := by
  intro e he hk i hi b d hb hd hd2 j hj hji
  obtain ⟨-, hcfj⟩ := stable_sections hwf hst
  have hmem : e ∈ els.filter (fun e => e.kind.isCommonFlowJunction) :=
    List.mem_filter.mpr ⟨he, hk⟩
  have hcfj' : (els.filter (fun e => e.kind.isCommonFlowJunction)).foldlM
      (fun st e => e.getBonds.foldlM
        (propJunctionBond DirView.flow SetOp.floFrom e.identifier e.getBonds) st)
      (false, bs) = .ok (false, bs) := hcfj
  have helem := foldlM_false_fixed
    (f := fun st e =>
      e.getBonds.foldlM (propJunctionBond DirView.flow SetOp.floFrom e.identifier e.getBonds) st)
    (fun s a s' hw hh => propJunctionElem_step a s s' hw hh) hwf hcfj' e hmem
  have hbond := foldlM_false_fixed
    (f := propJunctionBond DirView.flow SetOp.floFrom e.identifier e.getBonds)
    propJunctionBond_step hwf helem i hi
  have hinner := junction_fixed_trigger hwf hb (show DirView.flow.get b = some d from hd)
    (by simp [hd2]) hbond
  have hjmem : j ∈ e.getBonds.filter (· ≠ i) :=
    List.mem_filter.mpr ⟨hj, by simp [hji]⟩
  obtain ⟨ob, dj, h1, h2, h3⟩ := propOther_fixed (hinner j hjmem)
  refine ⟨ob, dj, h1, h2, ?_⟩
  simpa [SetOp.passFst] using h3

theorem wf_effort_self {b : Bond} {k : String} (hwf : BondWF b)
    (h : b.effortDir = some (k, k)) : b.start = k ∧ b.endp = k := by
  rcases hwf with ⟨h1, -⟩ | ⟨h1, -⟩ | ⟨h1, -⟩
  · rw [h1] at h; exact absurd h (by simp)
  · rw [h1] at h
    have := (Option.some.injEq _ _).mp h
    exact ⟨congrArg Prod.fst this, congrArg Prod.snd this⟩
  · rw [h1] at h
    have := (Option.some.injEq _ _).mp h
    exact ⟨congrArg Prod.snd this, congrArg Prod.fst this⟩

theorem wf_flow_self {b : Bond} {k : String} (hwf : BondWF b)
    (h : b.flowDir = some (k, k)) : b.start = k ∧ b.endp = k := by
  rcases hwf with ⟨-, h1⟩ | ⟨-, h1⟩ | ⟨-, h1⟩
  · rw [h1] at h; exact absurd h (by simp)
  · rw [h1] at h
    have := (Option.some.injEq _ _).mp h
    exact ⟨congrArg Prod.snd this, congrArg Prod.fst this⟩
  · rw [h1] at h
    have := (Option.some.injEq _ _).mp h
    exact ⟨congrArg Prod.fst this, congrArg Prod.snd this⟩

/-- At a stable state with pairwise-distinct endpoint pairs, a 0-junction
is the effort-input endpoint of at most one incident bond. -/
theorem cej_at_most_one {els : List Element} {bs : List Bond}
    (hwf : WFbonds bs) (hst : Stable els bs) (hpd : PairsDistinct bs) :
    ∀ e ∈ els, e.kind = ElementKind.commonEffortJunction →
    ∀ i ∈ e.getBonds, ∀ j ∈ e.getBonds,
    ∀ (bi bj : Bond) (di dj : String × String),
    bs[i]? = some bi → bs[j]? = some bj →
    bi.effortDir = some di → di.2 = e.identifier →
    bj.effortDir = some dj → dj.2 = e.identifier → i = j := by
  intro e he hk i hi j hj bi bj di dj hbi hbj hdi hdi2 hdj hdj2
  by_cases hij : i = j
  · exact hij
  exfalso
  have hk' : e.kind.isCommonEffortJunction = true := by rw [hk]; rfl
  obtain ⟨ob1, dj1, h1, h2, h3⟩ := stable_cej hwf hst e he hk' i hi bi di hbi hdi hdi2
    j hj (fun hq => hij hq.symm)
  have hob1 : ob1 = bj := (Option.some.injEq _ _).mp (h1.symm.trans hbj)
  rw [hob1] at h2
  have hdj1 : dj1 = dj := (Option.some.injEq _ _).mp (h2.symm.trans hdj)
  rw [hdj1] at h3
  obtain ⟨ob2, di1, g1, g2, g3⟩ := stable_cej hwf hst e he hk' j hj bj dj hbj hdj hdj2
    i hi hij
  have hob2 : ob2 = bi := (Option.some.injEq _ _).mp (g1.symm.trans hbi)
  rw [hob2] at g2
  have hdi1 : di1 = di := (Option.some.injEq _ _).mp (g2.symm.trans hdi)
  rw [hdi1] at g3
  have hdjkk : dj = (e.identifier, e.identifier) := Prod.ext h3 hdj2
  have hdikk : di = (e.identifier, e.identifier) := Prod.ext g3 hdi2
  obtain ⟨hbj1, hbj2⟩ := wf_effort_self (hwf bj (List.getElem?_mem hbj)) (hdjkk ▸ hdj)
  obtain ⟨hbi1, hbi2⟩ := wf_effort_self (hwf bi (List.getElem?_mem hbi)) (hdikk ▸ hdi)
  exact hij (hpd i j bi bj hbi hbj (by rw [hbi1, hbi2, hbj1, hbj2]))

/-- Dual statement for 1-junctions on flow-input endpoints. -/
theorem cfj_at_most_one {els : List Element} {bs : List Bond}
    (hwf : WFbonds bs) (hst : Stable els bs) (hpd : PairsDistinct bs) :
    ∀ e ∈ els, e.kind = ElementKind.commonFlowJunction →
    ∀ i ∈ e.getBonds, ∀ j ∈ e.getBonds,
    ∀ (bi bj : Bond) (di dj : String × String),
    bs[i]? = some bi → bs[j]? = some bj →
    bi.flowDir = some di → di.2 = e.identifier →
    bj.flowDir = some dj → dj.2 = e.identifier → i = j := by
  intro e he hk i hi j hj bi bj di dj hbi hbj hdi hdi2 hdj hdj2
  by_cases hij : i = j
  · exact hij
  exfalso
  have hk' : e.kind.isCommonFlowJunction = true := by rw [hk]; rfl
  obtain ⟨ob1, dj1, h1, h2, h3⟩ := stable_cfj hwf hst e he hk' i hi bi di hbi hdi hdi2
    j hj (fun hq => hij hq.symm)
  have hob1 : ob1 = bj := (Option.some.injEq _ _).mp (h1.symm.trans hbj)
  rw [hob1] at h2
  have hdj1 : dj1 = dj := (Option.some.injEq _ _).mp (h2.symm.trans hdj)
  rw [hdj1] at h3
  obtain ⟨ob2, di1, g1, g2, g3⟩ := stable_cfj hwf hst e he hk' j hj bj dj hbj hdj hdj2
    i hi hij
  have hob2 : ob2 = bi := (Option.some.injEq _ _).mp (g1.symm.trans hbi)
  rw [hob2] at g2
  have hdi1 : di1 = di := (Option.some.injEq _ _).mp (g2.symm.trans hdi)
  rw [hdi1] at g3
  have hdjkk : dj = (e.identifier, e.identifier) := Prod.ext h3 hdj2
  have hdikk : di = (e.identifier, e.identifier) := Prod.ext g3 hdi2
  obtain ⟨hbj1, hbj2⟩ := wf_flow_self (hwf bj (List.getElem?_mem hbj)) (hdjkk ▸ hdj)
  obtain ⟨hbi1, hbi2⟩ := wf_flow_self (hwf bi (List.getElem?_mem hbi)) (hdikk ▸ hdi)
  exact hij (hpd i j bi bj hbi hbj (by rw [hbi1, hbi2, hbj1, hbj2]))

/-! ## Phase 1 writes the forced marks -/

theorem otherEnd_eq {b b1 : Bond} (hs : b1.start = b.start)
    (he : b1.endp = b.endp) (k : String) : otherEnd b1 k = otherEnd b k := by
  unfold otherEnd
  rw [hs, he]

theorem bondsLe_effort_persist {bs bs' : List Bond} (hle : bondsLe bs bs')
    {i : Nat} {b : Bond} {d : String × String}
    (h : bs[i]? = some b) (hd : b.effortDir = some d) :
    ∃ b', bs'[i]? = some b' ∧ b'.effortDir = some d := by
  obtain ⟨b', hb', hlb⟩ := hle.2 i b h
  exact ⟨b', hb', hlb.2.2.2.1 d hd⟩

/-- A phase-1 section stamps every bond of every selected element with the
direction its set operation writes; later successful operations cannot
change it. -/
theorem phase1Section_marks {pred : ElementKind → Bool}
    {op : Bond → String → Except Err Bond} (hop : GoodOp op)
    {ed : Bond → String → String × String}
    (hshape : ∀ (b : Bond) (k : String) (b' : Bond), op b k = .ok b' →
      b'.effortDir = some (ed b k))
    (hed : ∀ (b b1 : Bond) (k : String), b1.start = b.start → b1.endp = b.endp →
      ed b1 k = ed b k)
    {els : List Element} :
    ∀ (bs bs' : List Bond), WFbonds bs →
    phase1Section pred op els bs = .ok bs' →
    ∀ e ∈ els, pred e.kind = true → ∀ i ∈ e.getBonds,
    ∀ b, bs[i]? = some b →
    ∃ b', bs'[i]? = some b' ∧ b'.effortDir = some (ed b e.identifier) := by
  intro bs bs' hwf h e he hke i hi b hb
  have hmem : e ∈ els.filter (fun e => pred e.kind) := List.mem_filter.mpr ⟨he, hke⟩
  obtain ⟨s1, s2, hws1, hr1, hstep, hr2⟩ :=
    foldlM_mem bondsLe_refl (fun _ _ _ => bondsLe_trans)
      (fun s a s' hi hh =>
        foldlM_inv bondsLe_refl (fun _ _ _ => bondsLe_trans)
          (phase1Apply_step hop) _ s s' hi hh)
      _ bs bs' hwf h e hmem
  obtain ⟨t1, t2, hwt1, hq1, hqstep, hq2⟩ :=
    foldlM_mem bondsLe_refl (fun _ _ _ => bondsLe_trans)
      (phase1Apply_step hop) _ s1 s2 hws1 hstep i hi
  obtain ⟨b1, hb1, hlb1⟩ := (bondsLe_trans hr1 hq1).2 i b hb
  unfold phase1Apply at hqstep
  rw [hb1] at hqstep
  dsimp only at hqstep
  cases hopr : op b1 e.identifier with
  | error er => rw [hopr] at hqstep; exact absurd hqstep (by simp [Bind.bind, Except.bind])
  | ok b1' =>
    rw [hopr] at hqstep
    simp only [Bind.bind, Except.bind] at hqstep
    cases hqstep
    have hdir : b1'.effortDir = some (ed b e.identifier) := by
      rw [hshape b1 e.identifier b1' hopr]
      rw [hed b b1 e.identifier hlb1.1 hlb1.2.1]
    have hidx : i < t1.length := (List.getElem?_eq_some.mp hb1).1
    have hset : (t1.set i b1')[i]? = some b1' := List.getElem?_set_eq hidx
    obtain ⟨b2, hb2, hd2⟩ := bondsLe_effort_persist hq2 hset hdir
    exact bondsLe_effort_persist hr2 hb2 hd2

/-- The two direction shapes a phase-1 set operation writes. -/
theorem setEffortFrom_shape : ∀ (b : Bond) (k : String) (b' : Bond),
    b.setEffortCausalityDirectionFrom k = .ok b' →
    b'.effortDir = some (k, otherEnd b k) :=
  fun _ _ _ h => (setEffortFrom_result h).2.2.2.1

theorem setFlowFrom_shape : ∀ (b : Bond) (k : String) (b' : Bond),
    b.setFlowCausalityDirectionFrom k = .ok b' →
    b'.effortDir = some (otherEnd b k, k) :=
  fun _ _ _ h => (setEffortTowards_result h).2.2.2.1

theorem bondsLe_endpoints {bs t : List Bond} (hle : bondsLe bs t) {i : Nat}
    {b : Bond} (hb : bs[i]? = some b) :
    ∃ b1, t[i]? = some b1 ∧ b1.start = b.start ∧ b1.endp = b.endp := by
  obtain ⟨b1, hb1, hlb⟩ := hle.2 i b hb
  exact ⟨b1, hb1, hlb.1, hlb.2.1⟩

/-- C5 core: the six phase-1 loops write, for each selected element and
each of its bonds, the forced effort direction, and phase 1 as a whole
preserves it. -/
theorem phase1_marks {els : List Element} {bs bs' : List Bond} (hwf : WFbonds bs)
    (h : phase1 els bs = .ok bs') :
    ∀ e ∈ els, ∀ i ∈ e.getBonds, ∀ b, bs[i]? = some b →
    ((e.kind = ElementKind.effortSource ∨ e.kind = ElementKind.effortController ∨
      e.kind = ElementKind.flowSensor) →
      ∃ b', bs'[i]? = some b' ∧
        b'.effortDir = some (e.identifier, otherEnd b e.identifier)) ∧
    ((e.kind = ElementKind.flowSource ∨ e.kind = ElementKind.flowController ∨
      e.kind = ElementKind.effortSensor) →
      ∃ b', bs'[i]? = some b' ∧
        b'.effortDir = some (otherEnd b e.identifier, e.identifier)) := by
  have hedF : ∀ (b b1 : Bond) (k : String), b1.start = b.start → b1.endp = b.endp →
      ((k, otherEnd b1 k) : String × String) = (k, otherEnd b k) := by
    intro b b1 k hs he
    rw [otherEnd_eq hs he]
  have hedT : ∀ (b b1 : Bond) (k : String), b1.start = b.start → b1.endp = b.endp →
      ((otherEnd b1 k, k) : String × String) = (otherEnd b k, k) := by
    intro b b1 k hs he
    rw [otherEnd_eq hs he]
  unfold phase1 at h
  cases h1 : phase1Section ElementKind.isEffortSource
      Bond.setEffortCausalityDirectionFrom els bs with
  | error e => rw [h1] at h; exact absurd h (by simp [Bind.bind, Except.bind])
  | ok t1 =>
    rw [h1] at h; simp only [Bind.bind, Except.bind] at h
    obtain ⟨w1, l1⟩ := phase1Section_inv goodOp_effFrom _ _ hwf h1
    cases h2 : phase1Section ElementKind.isFlowSource
        Bond.setFlowCausalityDirectionFrom els t1 with
    | error e => rw [h2] at h; exact absurd h (by simp [Bind.bind, Except.bind])
    | ok t2 =>
      rw [h2] at h; simp only [Bind.bind, Except.bind] at h
      obtain ⟨w2, l2⟩ := phase1Section_inv goodOp_floFrom _ _ w1 h2
      cases h3 : phase1Section ElementKind.isEffortSensor
          Bond.setFlowCausalityDirectionFrom els t2 with
      | error e => rw [h3] at h; exact absurd h (by simp [Bind.bind, Except.bind])
      | ok t3 =>
        rw [h3] at h; simp only [Bind.bind, Except.bind] at h
        obtain ⟨w3, l3⟩ := phase1Section_inv goodOp_floFrom _ _ w2 h3
        cases h4 : phase1Section ElementKind.isFlowSensor
            Bond.setEffortCausalityDirectionFrom els t3 with
        | error e => rw [h4] at h; exact absurd h (by simp [Bind.bind, Except.bind])
        | ok t4 =>
          rw [h4] at h; simp only [Bind.bind, Except.bind] at h
          obtain ⟨w4, l4⟩ := phase1Section_inv goodOp_effFrom _ _ w3 h4
          cases h5 : phase1Section ElementKind.isEffortController
              Bond.setEffortCausalityDirectionFrom els t4 with
          | error e => rw [h5] at h; exact absurd h (by simp [Bind.bind, Except.bind])
          | ok t5 =>
            rw [h5] at h; simp only [Bind.bind, Except.bind] at h
            obtain ⟨w5, l5⟩ := phase1Section_inv goodOp_effFrom _ _ w4 h5
            obtain ⟨w6, l6⟩ := phase1Section_inv goodOp_floFrom _ _ w5 h
            intro e he i hi b hb
            constructor
            · intro hkind
              rcases hkind with hk | hk | hk
              · -- EffortSource: section 1, then persist through 2..6
                obtain ⟨b', hb', hd⟩ := phase1Section_marks goodOp_effFrom
                  setEffortFrom_shape hedF bs t1 hwf h1 e he (by rw [hk]; rfl) i hi b hb
                obtain ⟨c2, hc2, hd2⟩ := bondsLe_effort_persist l2 hb' hd
                obtain ⟨c3, hc3, hd3⟩ := bondsLe_effort_persist l3 hc2 hd2
                obtain ⟨c4, hc4, hd4⟩ := bondsLe_effort_persist l4 hc3 hd3
                obtain ⟨c5, hc5, hd5⟩ := bondsLe_effort_persist l5 hc4 hd4
                exact bondsLe_effort_persist l6 hc5 hd5
              · -- EffortController: section 5 from t4
                obtain ⟨b4, hb4, hs4, he4⟩ := bondsLe_endpoints
                  (bondsLe_trans l1 (bondsLe_trans l2 (bondsLe_trans l3 l4))) hb
                obtain ⟨b', hb', hd⟩ := phase1Section_marks goodOp_effFrom
                  setEffortFrom_shape hedF t4 t5 w4 h5 e he (by rw [hk]; rfl) i hi b4 hb4
                rw [otherEnd_eq hs4 he4] at hd
                exact bondsLe_effort_persist l6 hb' hd
              · -- FlowSensor: section 4 from t3
                obtain ⟨b3, hb3, hs3, he3⟩ := bondsLe_endpoints
                  (bondsLe_trans l1 (bondsLe_trans l2 l3)) hb
                obtain ⟨b', hb', hd⟩ := phase1Section_marks goodOp_effFrom
                  setEffortFrom_shape hedF t3 t4 w3 h4 e he (by rw [hk]; rfl) i hi b3 hb3
                rw [otherEnd_eq hs3 he3] at hd
                obtain ⟨c5, hc5, hd5⟩ := bondsLe_effort_persist l5 hb' hd
                exact bondsLe_effort_persist l6 hc5 hd5
            · intro hkind
              rcases hkind with hk | hk | hk
              · -- FlowSource: section 2 from t1
                obtain ⟨b1, hb1, hs1, he1⟩ := bondsLe_endpoints l1 hb
                obtain ⟨b', hb', hd⟩ := phase1Section_marks goodOp_floFrom
                  setFlowFrom_shape hedT t1 t2 w1 h2 e he (by rw [hk]; rfl) i hi b1 hb1
                rw [otherEnd_eq hs1 he1] at hd
                obtain ⟨c3, hc3, hd3⟩ := bondsLe_effort_persist l3 hb' hd
                obtain ⟨c4, hc4, hd4⟩ := bondsLe_effort_persist l4 hc3 hd3
                obtain ⟨c5, hc5, hd5⟩ := bondsLe_effort_persist l5 hc4 hd4
                exact bondsLe_effort_persist l6 hc5 hd5
              · -- FlowController: section 6 from t5
                obtain ⟨b5, hb5, hs5, he5⟩ := bondsLe_endpoints
                  (bondsLe_trans l1 (bondsLe_trans l2 (bondsLe_trans l3
                    (bondsLe_trans l4 l5)))) hb
                obtain ⟨b', hb', hd⟩ := phase1Section_marks goodOp_floFrom
                  setFlowFrom_shape hedT t5 bs' w5 h e he (by rw [hk]; rfl) i hi b5 hb5
                rw [otherEnd_eq hs5 he5] at hd
                exact ⟨b', hb', hd⟩
              · -- EffortSensor: section 3 from t2
                obtain ⟨b2, hb2, hs2, he2⟩ := bondsLe_endpoints
                  (bondsLe_trans l1 l2) hb
                obtain ⟨b', hb', hd⟩ := phase1Section_marks goodOp_floFrom
                  setFlowFrom_shape hedT t2 t3 w2 h3 e he (by rw [hk]; rfl) i hi b2 hb2
                rw [otherEnd_eq hs2 he2] at hd
                obtain ⟨c4, hc4, hd4⟩ := bondsLe_effort_persist l4 hb' hd
                obtain ⟨c5, hc5, hd5⟩ := bondsLe_effort_persist l5 hc4 hd4
                exact bondsLe_effort_persist l6 hc5 hd5

/-! ## Exact behaviour of `set_effort_causality_direction_towards` -/

/-- Full case analysis of the `towards` operation on a well-formed bond at
one of its endpoints: an unmarked bond is marked with `x` as effort-input;
a marked bond with two distinct endpoints always raises the conflict
(because the source compares component `[1]` of both the effort view and
the flow view against `x`, and those components differ); a marked
self-loop succeeds and leaves the bond unchanged. -/
theorem setEffortTowards_spec {b : Bond} {x : String} (hwf : BondWF b)
    (hx : b.start = x ∨ b.endp = x) :
    (b.effortDir = none →
      ∃ b', b.setEffortCausalityDirectionTowards x = .ok b' ∧
        b'.effortDir = some (otherEnd b x, x) ∧
        b'.flowDir = some (x, otherEnd b x)) ∧
    (b.effortDir.isSome → b.start ≠ b.endp →
      b.setEffortCausalityDirectionTowards x = .error (.causalConflictSet b.index)) ∧
    (b.effortDir.isSome → b.start = b.endp →
      b.setEffortCausalityDirectionTowards x = .ok b) := by
  refine ⟨?_, ?_, ?_⟩
  · intro hnone
    have hflow : b.flowDir = none := by
      rcases hwf with ⟨-, h2⟩ | ⟨h1, -⟩ | ⟨h1, -⟩
      · exact h2
      · rw [h1] at hnone; exact absurd hnone (by simp)
      · rw [h1] at hnone; exact absurd hnone (by simp)
    by_cases hsx : b.start = x
    · refine ⟨{ b with effortDir := some (b.endp, x), flowDir := some (x, b.endp) },
        ?_, ?_, ?_⟩
      · unfold Bond.setEffortCausalityDirectionTowards
        simp [hnone, hflow, hsx]
      · simp [otherEnd, hsx]
      · simp [otherEnd, hsx]
    · have hex : b.endp = x := by
        rcases hx with hx | hx
        · exact absurd hx hsx
        · exact hx
      refine ⟨{ b with effortDir := some (b.start, x), flowDir := some (x, b.start) },
        ?_, ?_, ?_⟩
      · unfold Bond.setEffortCausalityDirectionTowards
        simp [hnone, hflow, hsx, hex]
      · simp [otherEnd, hsx]
      · simp [otherEnd, hsx]
  · intro hsome hne
    rcases hwf with ⟨h1, -⟩ | ⟨h1, h2⟩ | ⟨h1, h2⟩
    · rw [h1] at hsome; exact absurd hsome (by simp)
    · unfold Bond.setEffortCausalityDirectionTowards
      by_cases hex : b.endp = x
      · have hsx : b.start ≠ x := fun hq => hne (hq.trans hex.symm)
        simp [h1, h2, hex, hsx]
      · simp [h1, hex]
    · unfold Bond.setEffortCausalityDirectionTowards
      by_cases hsx : b.start = x
      · have hex : b.endp ≠ x := fun hq => hne (hsx.trans hq.symm)
        simp [h1, h2, hsx, hex]
      · simp [h1, hsx]
  · intro hsome hloop
    have hxx : b.start = x := by
      rcases hx with hx | hx
      · exact hx
      · exact hloop.trans hx
    rcases hwf with ⟨h1, -⟩ | ⟨h1, h2⟩ | ⟨h1, h2⟩
    · rw [h1] at hsome; exact absurd hsome (by simp)
    · unfold Bond.setEffortCausalityDirectionTowards
      have hex : b.endp = x := hloop.symm.trans hxx
      simp only [h1, h2, hex, hxx, hloop]
      simp [← hloop, ← hxx]
      cases b with
      | mk s e i ed fd =>
        simp only at h1 h2 hxx hloop ⊢
        simp [h1, h2, hxx, hloop, hxx.symm.trans hloop]
    · unfold Bond.setEffortCausalityDirectionTowards
      have hex : b.endp = x := hloop.symm.trans hxx
      simp only [h1, h2, hex, hxx, hloop]
      simp [← hloop, ← hxx]
      cases b with
      | mk s e i ed fd =>
        simp only at h1 h2 hxx hloop ⊢
        simp [h1, h2, hxx, hloop, hxx.symm.trans hloop]

/-! ## Sequences of marking operations (antiparallel invariant) -/

/-- Apply an arbitrary sequence of the four marking operations to a bond
(each entry: which operation, and on behalf of which element name). -/
def applySetOps (b : Bond) (ops : List (SetOp × String)) : Except Err Bond :=
  ops.foldlM (fun b p => p.1.apply b p.2) b

/-- Every successful set operation leaves the two views exact reverses of
each other. -/
theorem setOp_apply_antipar {op : SetOp} {b : Bond} {k : String} {b' : Bond}
    (h : op.apply b k = .ok b') :
    ∃ p : String × String, b'.effortDir = some p ∧ b'.flowDir = some (p.2, p.1) := by
  cases op <;>
    simp only [SetOp.apply, Bond.setFlowCausalityDirectionFrom,
      Bond.setFlowCausalityDirectionTowards] at h
  case effFrom =>
    obtain ⟨-, -, -, h4, h5⟩ := setEffortFrom_result h
    exact ⟨_, h4, h5⟩
  case effTowards =>
    obtain ⟨-, -, -, h4, h5⟩ := setEffortTowards_result h
    exact ⟨_, h4, h5⟩
  case floFrom =>
    obtain ⟨-, -, -, h4, h5⟩ := setEffortTowards_result h
    exact ⟨_, h4, h5⟩
  case floTowards =>
    obtain ⟨-, -, -, h4, h5⟩ := setEffortFrom_result h
    exact ⟨_, h4, h5⟩

theorem applySetOps_antipar :
    ∀ (ops : List (SetOp × String)) (b b' : Bond),
    ((b.effortDir = none ∧ b.flowDir = none) ∨
      ∃ p : String × String, b.effortDir = some p ∧ b.flowDir = some (p.2, p.1)) →
    applySetOps b ops = .ok b' →
    (b'.effortDir = none ∧ b'.flowDir = none) ∨
    ∃ p : String × String, b'.effortDir = some p ∧ b'.flowDir = some (p.2, p.1) := by
  intro ops
  induction ops with
  | nil =>
    intro b b' hb h
    unfold applySetOps at h
    simp only [List.foldlM_nil] at h
    cases h
    exact hb
  | cons p rest ih =>
    intro b b' hb h
    unfold applySetOps at h
    simp only [List.foldlM_cons] at h
    cases hp : p.1.apply b p.2 with
    | error e => rw [hp] at h; exact absurd h (by simp [Bind.bind, Except.bind])
    | ok b1 =>
      rw [hp] at h
      simp only [Bind.bind, Except.bind] at h
      exact ih b1 b' (Or.inr (setOp_apply_antipar hp)) h

/-! ## Exact behaviour of the `from`-style operations on unmarked bonds -/

theorem setEffortFrom_unset {b : Bond} {x : String}
    (hnone : b.effortDir = none) (hflow : b.flowDir = none)
    (hx : b.start = x ∨ b.endp = x) :
    ∃ b', b.setEffortCausalityDirectionFrom x = .ok b' ∧
      b'.effortDir = some (x, otherEnd b x) ∧
      b'.flowDir = some (otherEnd b x, x) := by
  by_cases hsx : b.start = x
  · refine ⟨{ b with effortDir := some (x, b.endp), flowDir := some (b.endp, x) },
      ?_, ?_, ?_⟩
    · unfold Bond.setEffortCausalityDirectionFrom
      simp [hnone, hflow, hsx]
    · simp [otherEnd, hsx]
    · simp [otherEnd, hsx]
  · have hex : b.endp = x := by
      rcases hx with hx | hx
      · exact absurd hx hsx
      · exact hx
    refine ⟨{ b with effortDir := some (x, b.start), flowDir := some (b.start, x) },
      ?_, ?_, ?_⟩
    · unfold Bond.setEffortCausalityDirectionFrom
      simp [hnone, hflow, hsx, hex]
    · simp [otherEnd, hsx]
    · simp [otherEnd, hsx]

theorem setEffortTowards_unset {b : Bond} {x : String}
    (hnone : b.effortDir = none) (hflow : b.flowDir = none)
    (hx : b.start = x ∨ b.endp = x) :
    ∃ b', b.setEffortCausalityDirectionTowards x = .ok b' ∧
      b'.effortDir = some (otherEnd b x, x) ∧
      b'.flowDir = some (x, otherEnd b x) :=
  (setEffortTowards_spec (Or.inl ⟨hnone, hflow⟩) hx).1 hnone

/-! ## Exact behaviour of the phase-2 body for a single resistance -/

/-- The four branches of the phase-2 rule on a resistance with one
unmarked bond: invertible both ways — no action; solvable for exactly one
variable — that variable's direction is set away `from` the resistance
(the solvable variable becomes the resistance's OUTPUT); solvable for
neither — the `UnsolvableConstitutiveEquation` error. -/
theorem phase2ElemStep_spec {e : Element} {sE sF : Bool} {i : Nat}
    {bs : List Bond} {b : Bond}
    (hk : e.kind = ElementKind.resistance sE sF)
    (hbonds : e.getBonds = [i]) (hb : bs[i]? = some b)
    (hunm : b.effortDir = none) (hfl : b.flowDir = none)
    (hend : b.start = e.identifier ∨ b.endp = e.identifier) :
    (sE = true → sF = true → phase2ElemStep e bs = .ok bs) ∧
    (sE = true → sF = false →
      ∃ b', phase2ElemStep e bs = .ok (bs.set i b') ∧
        b'.effortDir = some (e.identifier, otherEnd b e.identifier) ∧
        b'.flowDir = some (otherEnd b e.identifier, e.identifier)) ∧
    (sE = false → sF = true →
      ∃ b', phase2ElemStep e bs = .ok (bs.set i b') ∧
        b'.effortDir = some (otherEnd b e.identifier, e.identifier) ∧
        b'.flowDir = some (e.identifier, otherEnd b e.identifier)) ∧
    (sE = false → sF = false →
      phase2ElemStep e bs = .error (.unsolvable e.identifier)) := by
  have hstep : phase2ElemStep e bs =
      (if ¬ e.kind.isConstitutiveEquationInvertible then
        if e.kind.solvableForEffort then
          (b.setEffortCausalityDirectionFrom e.identifier).bind
            (fun b' => .ok (bs.set i b'))
        else if e.kind.solvableForFlow then
          (b.setFlowCausalityDirectionFrom e.identifier).bind
            (fun b' => .ok (bs.set i b'))
        else .error (.unsolvable e.identifier)
      else .ok bs) := by
    unfold phase2ElemStep
    rw [hbonds]
    simp only [List.foldlM_cons, List.foldlM_nil, hb]
    split
    · split
      · cases hop : b.setEffortCausalityDirectionFrom e.identifier <;>
          simp [Bind.bind, Except.bind, Pure.pure, Except.pure, hop]
      · split
        · cases hop : b.setFlowCausalityDirectionFrom e.identifier <;>
            simp [Bind.bind, Except.bind, Pure.pure, Except.pure, hop]
        · simp [Bind.bind, Except.bind]
    · simp [Bind.bind, Except.bind, Pure.pure, Except.pure]
  refine ⟨?_, ?_, ?_, ?_⟩
  · intro hE hF
    rw [hstep, hk, hE, hF]
    simp [ElementKind.isConstitutiveEquationInvertible,
      ElementKind.solvableForEffort, ElementKind.solvableForFlow]
  · intro hE hF
    obtain ⟨b', hop, hd1, hd2⟩ := setEffortFrom_unset hunm hfl hend
    refine ⟨b', ?_, hd1, hd2⟩
    rw [hstep, hk, hE, hF]
    simp only [ElementKind.isConstitutiveEquationInvertible,
      ElementKind.solvableForEffort, ElementKind.solvableForFlow]
    simp [hop, Except.bind]
  · intro hE hF
    obtain ⟨b', hop, hd1, hd2⟩ := setEffortTowards_unset hunm hfl hend
    refine ⟨b', ?_, hd1, hd2⟩
    rw [hstep, hk, hE, hF]
    simp only [ElementKind.isConstitutiveEquationInvertible,
      ElementKind.solvableForEffort, ElementKind.solvableForFlow]
    simp [Bond.setFlowCausalityDirectionFrom, hop, Except.bind]
  · intro hE hF
    rw [hstep, hk, hE, hF]
    simp [ElementKind.isConstitutiveEquationInvertible,
      ElementKind.solvableForEffort, ElementKind.solvableForFlow]

/-! ## Concrete scenarios used by the claims -/

/-- The worked RC scenario (spec §8): `C` (capacitance, relation
`e − q = 0`, initial value 2 — the relation never enters causality
assignment), `R` (resistance, relation `f − e = 0`, which sympy solves
both for effort and for flow, hence `resistance true true`), `J0`
(0-junction). -/
def rcSpecs : List (String × ElementKind) :=
  [("C", .capacitance 2), ("R", .resistance true true), ("J0", .commonEffortJunction)]

/-- Bond list of the RC scenario. -/
def rcPairs : List (String × String) := [("J0", "C"), ("J0", "R")]

/-- Construction result of the RC scenario. -/
def rcResult : Except Err (Bondgraph × List Nat) :=
  Bondgraph.construct rcSpecs rcPairs

/-- The RC graph (placeholder on failure; construction in fact succeeds). -/
def rcGraph : Bondgraph :=
  match rcResult with
  | .ok (g, _) => g
  | .error _ => ⟨[], []⟩

/-- C3: the RC scenario constructs successfully with no phase-4 warning;
bond `(J0,C)` carries effort causality direction from `C` towards `J0`
(`C` is the effort-output / flow-input endpoint), and bond `(J0,R)`
carries effort causality direction from `J0` towards `R` (`R` is the
effort-input endpoint). -/
theorem claim_C3 :
    rcResult = .ok (rcGraph, []) ∧
    rcGraph.bonds.map (fun b => (b.start, b.endp, b.effortDir)) =
      [("J0", "C", some ("C", "J0")), ("J0", "R", some ("J0", "R"))] := by
  constructor
  · rfl
  · rfl

/-- C2 (Totality): for every element/bond specification whose construction
returns a graph (structural validation passed and causality assignment
raised no error), every bond returned by `get_bonds()` has a non-`Unset`
causality mark. -/
theorem claim_C2 {specs : List (String × ElementKind)}
    {pairs : List (String × String)} {g : Bondgraph} {w : List Nat}
    (h : Bondgraph.construct specs pairs = .ok (g, w)) :
    ∀ b ∈ g.getBonds, b.isCausalitySet = true := by
  obtain ⟨-, -, -, -, b3i, hw, hs, hfold⟩ := construct_facts h
  intro b hb
  unfold Bondgraph.getBonds at hb
  obtain ⟨i, hi, hbi⟩ := List.mem_filterMap.mp hb
  exact phase4_go_marks (getBondIdxs g.elements) (b3i, []) (g.bonds, w)
    ⟨hw, hs⟩ hfold i hi b hbi

/-- Witness for C2: the RC scenario. -/
theorem claim_C2_witness :
    Bondgraph.construct rcSpecs rcPairs = .ok (rcGraph, []) ∧
    ∀ b ∈ rcGraph.getBonds, b.isCausalitySet = true :=
  ⟨by rfl, fun b hb => @claim_C2 rcSpecs rcPairs rcGraph [] (by rfl) b hb⟩

/-- C4 (junction exclusivity): in every successfully constructed graph,
each 0-junction is the effort-input endpoint (`effort_causality_direction[1]`)
of at most one incident bond, and dually each 1-junction is the flow-input
endpoint of at most one incident bond. -/
theorem claim_C4 {specs : List (String × ElementKind)}
    {pairs : List (String × String)} {g : Bondgraph} {w : List Nat}
    (h : Bondgraph.construct specs pairs = .ok (g, w)) :
    ∀ e ∈ g.elements,
      (e.kind = ElementKind.commonEffortJunction →
        ∀ i ∈ e.getBonds, ∀ j ∈ e.getBonds,
        ∀ (bi bj : Bond) (di dj : String × String),
        g.bonds[i]? = some bi → g.bonds[j]? = some bj →
        bi.effortDir = some di → di.2 = e.identifier →
        bj.effortDir = some dj → dj.2 = e.identifier → i = j) ∧
      (e.kind = ElementKind.commonFlowJunction →
        ∀ i ∈ e.getBonds, ∀ j ∈ e.getBonds,
        ∀ (bi bj : Bond) (di dj : String × String),
        g.bonds[i]? = some bi → g.bonds[j]? = some bj →
        bi.flowDir = some di → di.2 = e.identifier →
        bj.flowDir = some dj → dj.2 = e.identifier → i = j) := by
  obtain ⟨-, hwf, hst, hpd, -⟩ := construct_facts h
  intro e he
  constructor
  · intro hk i hi j hj bi bj di dj h1 h2 h3 h4 h5 h6
    exact cej_at_most_one hwf hst hpd e he hk i hi j hj bi bj di dj h1 h2 h3 h4 h5 h6
  · intro hk i hi j hj bi bj di dj h1 h2 h3 h4 h5 h6
    exact cfj_at_most_one hwf hst hpd e he hk i hi j hj bi bj di dj h1 h2 h3 h4 h5 h6

/-- Witness for C4: the RC scenario (junction `J0` with two incident bonds). -/
theorem claim_C4_witness :
    Bondgraph.construct rcSpecs rcPairs = .ok (rcGraph, []) ∧
    ∀ e ∈ rcGraph.elements,
      (e.kind = ElementKind.commonEffortJunction →
        ∀ i ∈ e.getBonds, ∀ j ∈ e.getBonds,
        ∀ (bi bj : Bond) (di dj : String × String),
        rcGraph.bonds[i]? = some bi → rcGraph.bonds[j]? = some bj →
        bi.effortDir = some di → di.2 = e.identifier →
        bj.effortDir = some dj → dj.2 = e.identifier → i = j) ∧
      (e.kind = ElementKind.commonFlowJunction →
        ∀ i ∈ e.getBonds, ∀ j ∈ e.getBonds,
        ∀ (bi bj : Bond) (di dj : String × String),
        rcGraph.bonds[i]? = some bi → rcGraph.bonds[j]? = some bj →
        bi.flowDir = some di → di.2 = e.identifier →
        bj.flowDir = some dj → dj.2 = e.identifier → i = j) :=
  ⟨by rfl, fun e he => @claim_C4 rcSpecs rcPairs rcGraph [] (by rfl) e he⟩

/-- Two junctions bonded in both directions: structurally valid, fully
resolved only by phase 4. -/
def c9Specs : List (String × ElementKind) :=
  [("J0", .commonEffortJunction), ("J1", .commonFlowJunction)]

/-- Bond list `[(J0,J1), (J1,J0)]`: bond 0 is the in-bond of `J1`, bond 1
the in-bond of `J0`; `get_bonds()` lists `J0`'s in-bonds first. -/
def c9Pairs : List (String × String) := [("J0", "J1"), ("J1", "J0")]

/-- The graph of the two-junction scenario. -/
def c9Graph : Bondgraph :=
  match Bondgraph.construct c9Specs c9Pairs with
  | .ok (g, _) => g
  | .error _ => ⟨[], []⟩

/-- C9 counterexample: this construction succeeds (with one phase-4
warning), but `get_bonds()` returns the bonds in order `[1, 0]` of their
construction indices — not in order `0..n−1` as the claim states. -/
theorem claim_C9_counterexample :
    Bondgraph.construct c9Specs c9Pairs = .ok (c9Graph, [1]) ∧
    c9Graph.getBonds.map Bond.index = [1, 0] ∧
    ([1, 0] : List Nat) ≠ [0, 1] := by
  refine ⟨by rfl, by rfl, by decide⟩

/-- C9 amended: `get_bonds()` returns each of the `n` constructed bonds
exactly once, but ordered by end element in element-registration order
(the concatenation of the per-element in-bond lists), not necessarily in
construction-index order. -/
theorem claim_C9 {specs : List (String × ElementKind)}
    {pairs : List (String × String)} {g : Bondgraph} {w : List Nat}
    (h : Bondgraph.construct specs pairs = .ok (g, w)) :
    g.getBonds.Perm g.bonds := by
  obtain ⟨hperm, -⟩ := construct_facts h
  unfold Bondgraph.getBonds
  have hp := hperm.filterMap (fun i => g.bonds[i]?)
  rw [filterMap_getElem_range] at hp
  exact hp

/-- Witness for C9 at the two-junction scenario. -/
theorem claim_C9_witness :
    Bondgraph.construct c9Specs c9Pairs = .ok (c9Graph, [1]) ∧
    c9Graph.getBonds.Perm c9Graph.bonds :=
  ⟨by rfl, @claim_C9 c9Specs c9Pairs c9Graph [1] (by rfl)⟩

/-- R1 solvable only for effort, bonded to a fully invertible R2. -/
def c1Specs : List (String × ElementKind) :=
  [("R1", .resistance true false), ("R2", .resistance true true)]

/-- The single bond `(R1, R2)`. -/
def c1Pairs : List (String × String) := [("R1", "R2")]

/-- The graph of the two-resistance scenario. -/
def c1Graph : Bondgraph :=
  match Bondgraph.construct c1Specs c1Pairs with
  | .ok (g, _) => g
  | .error _ => ⟨[], []⟩

/-- C1 counterexample: `R1`'s relation is solvable for effort only.  The
claim says effort is then marked as `R1`'s INPUT variable, i.e. the final
effort causality direction of the bond would be `("R2", "R1")` (towards
`R1`).  The code instead marks effort away FROM `R1`: the direction is
`("R1", "R2")` — effort is `R1`'s output. -/
theorem claim_C1_counterexample :
    Bondgraph.construct c1Specs c1Pairs = .ok (c1Graph, []) ∧
    c1Graph.bonds.map Bond.effortDir = [some ("R1", "R2")] ∧
    ([some (("R1", "R2") : String × String)] : List (Option (String × String))) ≠
      [some ("R2", "R1")] := by
  refine ⟨by rfl, by rfl, by decide⟩

/-- C1 amended: for a `Resistance` with a single still-unmarked bond,
phase 2 leaves the bond unchanged when the relation is invertible for
both variables; when it is solvable for exactly one of {effort, flow} it
marks that variable as the resistance's OUTPUT (direction away from the
resistance, so the other variable is the input); when solvable for
neither it fails with the unsolvable-equation error.  Moreover
propagation to a fixed point runs ONCE after the whole phase-2 loop (and
once after phase 1), not after each assignment — visible in the phase
sequencing equation of `_assign_causalities`. -/
theorem claim_C1 {e : Element} {sE sF : Bool} {i : Nat}
    {bs : List Bond} {b : Bond}
    (hk : e.kind = ElementKind.resistance sE sF)
    (hbonds : e.getBonds = [i]) (hb : bs[i]? = some b)
    (hunm : b.effortDir = none) (hfl : b.flowDir = none)
    (hend : b.start = e.identifier ∨ b.endp = e.identifier) :
    ((sE = true → sF = true → phase2ElemStep e bs = .ok bs) ∧
     (sE = true → sF = false →
       ∃ b', phase2ElemStep e bs = .ok (bs.set i b') ∧
         b'.effortDir = some (e.identifier, otherEnd b e.identifier) ∧
         b'.flowDir = some (otherEnd b e.identifier, e.identifier)) ∧
     (sE = false → sF = true →
       ∃ b', phase2ElemStep e bs = .ok (bs.set i b') ∧
         b'.effortDir = some (otherEnd b e.identifier, e.identifier) ∧
         b'.flowDir = some (e.identifier, otherEnd b e.identifier)) ∧
     (sE = false → sF = false →
       phase2ElemStep e bs = .error (.unsolvable e.identifier))) ∧
    (∀ (els : List Element) (bs0 : List Bond),
      assignCausalities els bs0 =
        phase1 els bs0 >>= fun b1 =>
        propagateFixpoint els b1 >>= fun b1f =>
        phase2 els b1f >>= fun b2 =>
        propagateFixpoint els b2 >>= fun b2f =>
        phase3Section ElementKind.isCapacitance
          Bond.setFlowCausalityDirectionTowards els b2f >>= fun b3 =>
        phase3Section ElementKind.isInertance
          Bond.setEffortCausalityDirectionTowards els b3 >>= fun b3i =>
        phase4 els b3i) :=
  ⟨phase2ElemStep_spec hk hbonds hb hunm hfl hend, fun _ _ => rfl⟩

/-- Witness for C1: a resistance solvable only for effort, with its
single unmarked bond; phase 2 marks effort away from it. -/
theorem claim_C1_witness :
    ((⟨"R1", ElementKind.resistance true false, [], [0]⟩ : Element).getBonds = [0]) ∧
    ((Bond.mkBond "R1" "R2" 0).effortDir = none) ∧
    (∃ b', phase2ElemStep ⟨"R1", ElementKind.resistance true false, [], [0]⟩
        [Bond.mkBond "R1" "R2" 0] = .ok ([Bond.mkBond "R1" "R2" 0].set 0 b') ∧
      b'.effortDir = some ("R1", otherEnd (Bond.mkBond "R1" "R2" 0) "R1") ∧
      b'.flowDir = some (otherEnd (Bond.mkBond "R1" "R2" 0) "R1", "R1")) :=
  ⟨rfl, rfl,
    (@claim_C1 ⟨"R1", ElementKind.resistance true false, [], [0]⟩ true false 0
      [Bond.mkBond "R1" "R2" 0] (Bond.mkBond "R1" "R2" 0)
      rfl rfl rfl rfl rfl (Or.inl rfl)).1.2.1 rfl rfl⟩

/-- C5: after the phase-1 loops (before any propagation), every
`EffortSource` and `EffortController` has the OTHER endpoint of each of
its bonds as the effort-input endpoint; every `FlowSource`,
`FlowController` and `EffortSensor` has the element ITSELF as the
effort-input endpoint; and every `FlowSensor` has the other endpoint as
the effort-input endpoint.  (The effort-input endpoint of a bond is the
second component of its stored effort causality direction.) -/
theorem claim_C5 {els : List Element} {bs bs' : List Bond} (hwf : WFbonds bs)
    (h : phase1 els bs = .ok bs') :
    ∀ e ∈ els, ∀ i ∈ e.getBonds, ∀ b, bs[i]? = some b →
    ((e.kind = ElementKind.effortSource ∨ e.kind = ElementKind.effortController ∨
      e.kind = ElementKind.flowSensor) →
      ∃ b', bs'[i]? = some b' ∧
        b'.effortDir = some (e.identifier, otherEnd b e.identifier)) ∧
    ((e.kind = ElementKind.flowSource ∨ e.kind = ElementKind.flowController ∨
      e.kind = ElementKind.effortSensor) →
      ∃ b', bs'[i]? = some b' ∧
        b'.effortDir = some (otherEnd b e.identifier, e.identifier)) :=
  phase1_marks hwf h

/-- Witness for C5: one effort source and one flow source, each with one
unmarked bond. -/
theorem claim_C5_witness :
    WFbonds [Bond.mkBond "Se" "X" 0, Bond.mkBond "Sf" "X" 1] ∧
    phase1 [⟨"Se", ElementKind.effortSource, [], [0]⟩,
            ⟨"Sf", ElementKind.flowSource, [], [1]⟩]
      [Bond.mkBond "Se" "X" 0, Bond.mkBond "Sf" "X" 1] =
      .ok [⟨"Se", "X", 0, some ("Se", "X"), some ("X", "Se")⟩,
           ⟨"Sf", "X", 1, some ("X", "Sf"), some ("Sf", "X")⟩] ∧
    (∀ e ∈ [(⟨"Se", ElementKind.effortSource, [], [0]⟩ : Element),
            ⟨"Sf", ElementKind.flowSource, [], [1]⟩],
      ∀ i ∈ e.getBonds, ∀ b,
      [Bond.mkBond "Se" "X" 0, Bond.mkBond "Sf" "X" 1][i]? = some b →
      ((e.kind = ElementKind.effortSource ∨ e.kind = ElementKind.effortController ∨
        e.kind = ElementKind.flowSensor) →
        ∃ b', [(⟨"Se", "X", 0, some ("Se", "X"), some ("X", "Se")⟩ : Bond),
               ⟨"Sf", "X", 1, some ("X", "Sf"), some ("Sf", "X")⟩][i]? = some b' ∧
          b'.effortDir = some (e.identifier, otherEnd b e.identifier)) ∧
      ((e.kind = ElementKind.flowSource ∨ e.kind = ElementKind.flowController ∨
        e.kind = ElementKind.effortSensor) →
        ∃ b', [(⟨"Se", "X", 0, some ("Se", "X"), some ("X", "Se")⟩ : Bond),
               ⟨"Sf", "X", 1, some ("X", "Sf"), some ("Sf", "X")⟩][i]? = some b' ∧
          b'.effortDir = some (otherEnd b e.identifier, e.identifier))) :=
  ⟨by intro bq hbq; simp only [List.mem_cons, List.not_mem_nil, or_false] at hbq; rcases hbq with rfl | rfl <;> exact Or.inl ⟨rfl, rfl⟩, by rfl,
    fun e he i hi b hb => claim_C5 (by intro bq hbq; simp only [List.mem_cons, List.not_mem_nil, or_false] at hbq; rcases hbq with rfl | rfl <;> exact Or.inl ⟨rfl, rfl⟩) (by rfl) e he i hi b hb⟩

/-- A 0-junction double-bonded to a gyrator: structurally valid, reaches
phase 4 with both bonds unmarked. -/
def c6Specs : List (String × ElementKind) :=
  [("J", .commonEffortJunction), ("G", .gyrator)]

/-- Bond list `[(J,G), (G,J)]`. -/
def c6Pairs : List (String × String) := [("J", "G"), ("G", "J")]

/-- The element registry the builder produces for the gyrator scenario. -/
def c6Els : List Element :=
  [⟨"J", .commonEffortJunction, [1], [0]⟩, ⟨"G", .gyrator, [0], [1]⟩]

/-- The unmarked bond store the builder produces for the gyrator scenario. -/
def c6Bonds : List Bond := [Bond.mkBond "J" "G" 0, Bond.mkBond "G" "J" 1]

/-- C6 counterexample: the gyrator scenario passes structural validation,
phases 1–3 leave both bonds unmarked (so it reaches phase 4), and the
propagation run by phase 4 after the arbitrary first marking raises a
causal conflict — construction aborts BECAUSE of phase 4, refuting
"this fallback is never fatal". -/
theorem claim_C6_counterexample :
    Bondgraph.construct c6Specs c6Pairs = .error (.causalConflictProp 1) ∧
    phase1 c6Els c6Bonds = .ok c6Bonds ∧
    phase2 c6Els c6Bonds = .ok c6Bonds ∧
    phase3Section ElementKind.isCapacitance
      Bond.setFlowCausalityDirectionTowards c6Els c6Bonds = .ok c6Bonds ∧
    phase3Section ElementKind.isInertance
      Bond.setEffortCausalityDirectionTowards c6Els c6Bonds = .ok c6Bonds ∧
    (∀ b ∈ c6Bonds, b.isCausalitySet = false) ∧
    phase4 c6Els c6Bonds = .error (.causalConflictProp 1) := by
  refine ⟨by rfl, by rfl, by rfl, by rfl, by rfl, by decide, by rfl⟩

/-- C6 amended: phase 4 walks the residual bonds in encounter order; for
each bond still unmarked it records the warning, marks the bond's end
element as the effort-input endpoint — that marking itself always
succeeds on an unmarked bond — and runs propagation to a fixed point
before the next residual bond.  The propagation, however, may raise a
causal conflict, so reaching phase 4 can still abort construction. -/
theorem claim_C6 {els : List Element} {s : List Bond × List Nat} {i : Nat}
    {b : Bond} (hwf : BondWF b) (hb : s.1[i]? = some b)
    (hunset : b.isCausalitySet = false) :
    ∃ b', b.setEffortCausalityDirectionTowards b.endp = .ok b' ∧
      b'.effortDir = some (otherEnd b b.endp, b.endp) ∧
      phase4Step els s i =
        (propagateFixpoint els (s.1.set i b')).bind
          (fun bs2 => .ok (bs2, s.2 ++ [i])) ∧
      phase4 els s.1 = (getBondIdxs els).foldlM (phase4Step els) (s.1, []) := by
  have hnone : b.effortDir = none ∧ b.flowDir = none := by
    rcases hwf with ⟨h1, h2⟩ | ⟨h1, h2⟩ | ⟨h1, h2⟩
    · exact ⟨h1, h2⟩
    · unfold Bond.isCausalitySet at hunset
      rw [h1, h2] at hunset
      exact absurd hunset (by simp)
    · unfold Bond.isCausalitySet at hunset
      rw [h1, h2] at hunset
      exact absurd hunset (by simp)
  obtain ⟨b', hop, hd1, hd2⟩ := setEffortTowards_unset hnone.1 hnone.2 (Or.inr rfl)
  refine ⟨b', hop, hd1, ?_, rfl⟩
  unfold phase4Step
  rw [hb]
  dsimp only
  rw [hunset]
  simp only [Bind.bind, Except.bind, hop]
  rfl

/-- Witness for C6: the first unmarked bond of the gyrator scenario. -/
theorem claim_C6_witness :
    BondWF (Bond.mkBond "J" "G" 0) ∧
    ((c6Bonds, ([] : List Nat)).1[(0 : Nat)]? = some (Bond.mkBond "J" "G" 0)) ∧
    ((Bond.mkBond "J" "G" 0).isCausalitySet = false) ∧
    (∃ b', (Bond.mkBond "J" "G" 0).setEffortCausalityDirectionTowards
        (Bond.mkBond "J" "G" 0).endp = .ok b' ∧
      b'.effortDir = some (otherEnd (Bond.mkBond "J" "G" 0)
        (Bond.mkBond "J" "G" 0).endp, (Bond.mkBond "J" "G" 0).endp) ∧
      phase4Step c6Els (c6Bonds, []) 0 =
        (propagateFixpoint c6Els ((c6Bonds, ([] : List Nat)).1.set 0 b')).bind
          (fun bs2 => .ok (bs2, (c6Bonds, ([] : List Nat)).2 ++ [0])) ∧
      phase4 c6Els (c6Bonds, ([] : List Nat)).1 =
        (getBondIdxs c6Els).foldlM (phase4Step c6Els) ((c6Bonds, ([] : List Nat)).1, [])) :=
  ⟨Or.inl ⟨rfl, rfl⟩, rfl, rfl,
    @claim_C6 c6Els (c6Bonds, []) 0
      (Bond.mkBond "J" "G" 0) (Or.inl ⟨rfl, rfl⟩) rfl rfl⟩

/-- C7 counterexample: on the fresh bond `(a, b)` the first
`set_effort_causality_direction_towards("a")` succeeds and marks `a` as
effort-input; re-asserting the very same `a` then raises the causal
conflict instead of being an idempotent no-op, because the conflict check
compares component `[1]` of both stored views against `a` and the flow
view stores `("a", "b")`. -/
theorem claim_C7_counterexample :
    ((Bond.mkBond "a" "b" 0).setEffortCausalityDirectionTowards "a") =
      .ok ⟨"a", "b", 0, some ("b", "a"), some ("a", "b")⟩ ∧
    (((Bond.mkBond "a" "b" 0).setEffortCausalityDirectionTowards "a").bind
      (fun b1 => b1.setEffortCausalityDirectionTowards "a")) =
      .error (.causalConflictSet 0) := by
  refine ⟨by rfl, by rfl⟩

/-- C7 amended: for a well-formed bond and an endpoint `x`, the request
that `x` be the effort-input endpoint succeeds on an unmarked bond
(marking `x` as effort-input); on an already-marked bond with two
distinct endpoints it ALWAYS raises the causal conflict — even when the
existing mark already names `x` as effort-input — because the check
compares component `[1]` of both the effort view and the antiparallel
flow view with `x`; only on a marked self-loop does re-assertion succeed,
as a no-op. -/
theorem claim_C7 {b : Bond} {x : String} (hwf : BondWF b)
    (hx : b.start = x ∨ b.endp = x) :
    (b.effortDir = none →
      ∃ b', b.setEffortCausalityDirectionTowards x = .ok b' ∧
        b'.effortDir = some (otherEnd b x, x) ∧
        b'.flowDir = some (x, otherEnd b x)) ∧
    (b.effortDir.isSome → b.start ≠ b.endp →
      b.setEffortCausalityDirectionTowards x = .error (.causalConflictSet b.index)) ∧
    (b.effortDir.isSome → b.start = b.endp →
      b.setEffortCausalityDirectionTowards x = .ok b) :=
  setEffortTowards_spec hwf hx

/-- Witness for C7: the marked bond `(a, b)` with effort-input already at
`a`; the claim's conflict branch applies. -/
theorem claim_C7_witness :
    BondWF (⟨"a", "b", 0, some ("b", "a"), some ("a", "b")⟩ : Bond) ∧
    ((⟨"a", "b", 0, some ("b", "a"), some ("a", "b")⟩ : Bond).effortDir.isSome = true) ∧
    ((⟨"a", "b", 0, some ("b", "a"), some ("a", "b")⟩ : Bond).setEffortCausalityDirectionTowards "a" =
      .error (.causalConflictSet 0)) :=
  ⟨Or.inr (Or.inr ⟨rfl, rfl⟩), rfl,
    (@claim_C7 ⟨"a", "b", 0, some ("b", "a"), some ("a", "b")⟩ "a"
      (Or.inr (Or.inr ⟨rfl, rfl⟩)) (Or.inl rfl)).2.1 rfl (by decide)⟩

/-- C8: after any successful sequence of the four marking operations on a
fresh bond, the stored effort and flow causality directions are either
both unset or exact reverses of each other; and the two flow-marking
operations are definitionally the effort-marking operations with roles
swapped. -/
theorem claim_C8 :
    (∀ (s e : String) (i : Nat) (ops : List (SetOp × String)) (b' : Bond),
      applySetOps (Bond.mkBond s e i) ops = .ok b' →
      (b'.effortDir = none ∧ b'.flowDir = none) ∨
      ∃ p : String × String, b'.effortDir = some p ∧ b'.flowDir = some (p.2, p.1)) ∧
    Bond.setFlowCausalityDirectionTowards = Bond.setEffortCausalityDirectionFrom ∧
    Bond.setFlowCausalityDirectionFrom = Bond.setEffortCausalityDirectionTowards := by
  refine ⟨?_, rfl, rfl⟩
  intro s e i ops b' h
  exact applySetOps_antipar ops _ b' (Or.inl ⟨rfl, rfl⟩) h

/-- Witness for C8: a two-operation sequence. -/
theorem claim_C8_witness :
    applySetOps (Bond.mkBond "a" "b" 0) [(SetOp.effTowards, "a")] =
      .ok ⟨"a", "b", 0, some ("b", "a"), some ("a", "b")⟩ ∧
    (((⟨"a", "b", 0, some ("b", "a"), some ("a", "b")⟩ : Bond).effortDir = none ∧
      (⟨"a", "b", 0, some ("b", "a"), some ("a", "b")⟩ : Bond).flowDir = none) ∨
    ∃ p : String × String,
      (⟨"a", "b", 0, some ("b", "a"), some ("a", "b")⟩ : Bond).effortDir = some p ∧
      (⟨"a", "b", 0, some ("b", "a"), some ("a", "b")⟩ : Bond).flowDir = some (p.2, p.1)) :=
  ⟨by rfl,
    claim_C8.1 "a" "b" 0 [(SetOp.effTowards, "a")]
      ⟨"a", "b", 0, some ("b", "a"), some ("a", "b")⟩ (by rfl)⟩

/-- C10: re-adding the same bond as an in-bond raises ("already in
element"), but adding the same bond twice as an out-bond succeeds both
times and leaves it twice in the out-bond list, because `add_out_bond`'s
duplicate check inspects `__in_bonds` rather than `__out_bonds`. -/
theorem claim_C10 :
    (∀ (e : Element) (b : Bond) (e1 : Element), e.addInBond b = .ok e1 →
      e1.addInBond b = .error (.bondAlreadyInElement e.identifier)) ∧
    (∀ (e : Element) (b : Bond), e.identifier = b.start → b.index ∉ e.inBonds →
      ∃ e1 e2, e.addOutBond b = .ok e1 ∧ e1.addOutBond b = .ok e2 ∧
        e2.outBonds = e.outBonds ++ [b.index, b.index]) := by
  constructor
  · intro e b e1 h
    obtain ⟨h1, h2, h3⟩ := addInBond_ok h
    subst h3
    unfold Element.addInBond
    simp [h1]
  · intro e b h1 h2
    refine ⟨{ e with outBonds := e.outBonds ++ [b.index] },
      { e with outBonds := (e.outBonds ++ [b.index]) ++ [b.index] }, ?_, ?_, ?_⟩
    · unfold Element.addOutBond
      simp [h1, h2]
    · unfold Element.addOutBond
      simp [h1, h2]
    · simp

/-- Witness for C10: a junction element and bonds attached twice. -/
theorem claim_C10_witness :
    ((⟨"A", ElementKind.commonEffortJunction, [], []⟩ : Element).addInBond
      (Bond.mkBond "X" "A" 0) =
      .ok ⟨"A", ElementKind.commonEffortJunction, [0], []⟩) ∧
    ((⟨"A", ElementKind.commonEffortJunction, [0], []⟩ : Element).addInBond
      (Bond.mkBond "X" "A" 0) = .error (.bondAlreadyInElement "A")) ∧
    (∃ e1 e2, (⟨"A", ElementKind.commonEffortJunction, [], []⟩ : Element).addOutBond
        (Bond.mkBond "A" "X" 1) = .ok e1 ∧
      e1.addOutBond (Bond.mkBond "A" "X" 1) = .ok e2 ∧
      e2.outBonds = ([] : List Nat) ++ [1, 1]) :=
  ⟨by rfl,
    claim_C10.1 ⟨"A", ElementKind.commonEffortJunction, [], []⟩
      (Bond.mkBond "X" "A" 0) ⟨"A", ElementKind.commonEffortJunction, [0], []⟩ (by rfl),
    claim_C10.2 ⟨"A", ElementKind.commonEffortJunction, [], []⟩
      (Bond.mkBond "A" "X" 1) rfl (by decide)⟩

end OsgBondgraphs
